import Mathlib

/-!
# CodeGraph — verification of the indexing pipeline against its specification

This file is a shallow embedding, in Lean 4, of the parts of the CodeGraph
code base (a TypeScript code knowledge-graph engine) that its natural-language
specification makes claims about:

* node-id generation (`src/extraction/tree-sitter.ts`, `generateNodeId`),
  including an executable SHA-256;
* the grammar registry (`src/extraction/grammars.ts`);
* the tree-sitter extraction traversal (`src/extraction/tree-sitter.ts`,
  `TreeSitterExtractor`);
* the graph store operations and the extraction orchestrator
  (`ExtractionOrchestrator.storeExtractionResult`, `indexFile`, `sync`);
* path validation (`validatePathWithinRoot`, `isPathWithinRootReal`);
* the PID file lock (`FileLock`);
* the WASM SQLite adapter's `transaction` wrapper.

Pure functions of the source become Lean functions; stateful code becomes
explicit state passing; JavaScript exceptions become `Except`/explicit error
components.  The tree-sitter parser itself, the `picomatch` glob matcher and
the behaviour of `git` are external collaborators and enter the model as
parameters.
-/

namespace CodeGraph

/-! ## JavaScript string primitives

The JS string methods the code uses are modelled over the character list of
a Lean `String` (so that every definition evaluates by kernel reduction). -/

/-- JS `s.trim()`. -/
def jsTrim (s : String) : String :=
  String.mk (((s.data.dropWhile Char.isWhitespace).reverse.dropWhile
    Char.isWhitespace).reverse)

/-- ASCII lower-casing of one character (the extensions the code lower-cases
are ASCII). -/
def charToLower (c : Char) : Char :=
  if 'A' ≤ c ∧ c ≤ 'Z' then Char.ofNat (c.toNat + 32) else c

/-- JS `s.toLowerCase()` on ASCII. -/
def jsToLower (s : String) : String := String.mk (s.data.map charToLower)

/-- JS `s.startsWith(pre)`. -/
def strStartsWith (s pre : String) : Bool := pre.data.isPrefixOf s.data

/-- Split on a single-character separator (JS `s.split(sep)` /
`String.prototype.split` for the one-character separators the code uses). -/
def splitCharAux (sep : Char) : List Char → List Char → List String
  | [], acc => [String.mk acc.reverse]
  | c :: rest, acc =>
    if c = sep then String.mk acc.reverse :: splitCharAux sep rest []
    else splitCharAux sep rest (c :: acc)

/-- Split a string on a separator character. -/
def splitChar (sep : Char) (s : String) : List String := splitCharAux sep s.data []

/-- JS `s.includes(c)` for one character. -/
def containsChar (s : String) (c : Char) : Bool := s.data.contains c

/-- Numeric value of a run of decimal digits. -/
def digitsToNat (ds : List Char) : Nat := ds.foldl (fun n c => 10 * n + (c.toNat - 48)) 0

/-! ## SHA-256 (Node `crypto.createHash('sha256')`)

An executable SHA-256 over `Nat`, used by `hashContent` and `generateNodeId`.
32-bit words are `Nat`s below `2^32`; every arithmetic step reduces mod
`2^32`.  The round constants and the initial hash value are *derived* (as in
FIPS 180-4) from the fractional parts of the cube roots, resp. square roots,
of the first primes, via exact integer root extraction. -/

/-- `2^32`, the modulus of 32-bit words. -/
def M32 : Nat := 4294967296

/-- 32-bit modular addition. -/
def add32 (a b : Nat) : Nat := (a + b) % M32

/-- 32-bit right rotation (input assumed `< 2^32`). -/
def rotr32 (k n : Nat) : Nat := ((n >>> k) ||| (n <<< (32 - k))) % M32

/-- Bitwise complement within 32 bits. -/
def not32 (n : Nat) : Nat := n ^^^ (M32 - 1)

/-- SHA-256 `Ch(x,y,z)`. -/
def shaCh (x y z : Nat) : Nat := (x &&& y) ^^^ (not32 x &&& z)

/-- SHA-256 `Maj(x,y,z)`. -/
def shaMaj (x y z : Nat) : Nat := (x &&& y) ^^^ (x &&& z) ^^^ (y &&& z)

/-- SHA-256 `Σ0`. -/
def bigSigma0 (x : Nat) : Nat := rotr32 2 x ^^^ rotr32 13 x ^^^ rotr32 22 x

/-- SHA-256 `Σ1`. -/
def bigSigma1 (x : Nat) : Nat := rotr32 6 x ^^^ rotr32 11 x ^^^ rotr32 25 x

/-- SHA-256 `σ0`. -/
def smallSigma0 (x : Nat) : Nat := rotr32 7 x ^^^ rotr32 18 x ^^^ (x >>> 3)

/-- SHA-256 `σ1`. -/
def smallSigma1 (x : Nat) : Nat := rotr32 17 x ^^^ rotr32 19 x ^^^ (x >>> 10)

/-- Integer cube root by binary descent on 40 bits:
`cbrtBit n k acc` refines `acc` with bit `k-1 … 0`. -/
def cbrtBit (n : Nat) : Nat → Nat → Nat
  | 0, acc => acc
  | k + 1, acc =>
    let c := acc + (1 <<< k)
    if c * c * c ≤ n then cbrtBit n k c else cbrtBit n k acc

/-- `natCbrt n` is the largest `x` with `x^3 ≤ n` (for `n < 2^120`). -/
def natCbrt (n : Nat) : Nat := cbrtBit n 40 0

/-- The first 64 primes, whose cube roots yield the SHA-256 round constants. -/
def first64Primes : List Nat :=
  [2, 3, 5, 7, 11, 13, 17, 19, 23, 29, 31, 37, 41, 43, 47, 53,
   59, 61, 67, 71, 73, 79, 83, 89, 97, 101, 103, 107, 109, 113, 127, 131,
   137, 139, 149, 151, 157, 163, 167, 173, 179, 181, 191, 193, 197, 199, 211, 223,
   227, 229, 233, 239, 241, 251, 257, 263, 269, 271, 277, 281, 283, 293, 307, 311]

/-- The 64 SHA-256 round constants: the first 32 fractional bits of the cube
roots of the first 64 primes. -/
def shaK : List Nat := first64Primes.map (fun p => natCbrt (p <<< 96) % M32)

/-- The initial hash value: the first 32 fractional bits of the square roots
of the first 8 primes. -/
def shaH0 : List Nat :=
  [2, 3, 5, 7, 11, 13, 17, 19].map (fun p => Nat.sqrt (p <<< 64) % M32)

/-- `v` as `n` big-endian bytes. -/
def bytesBE (n v : Nat) : List Nat :=
  (List.range n).map (fun i => (v >>> (8 * (n - 1 - i))) % 256)

/-- FIPS 180-4 padding: append `0x80`, zero bytes up to 56 mod 64, then the
bit length as 8 big-endian bytes. -/
def padMessage (msg : List Nat) : List Nat :=
  let padZeros := (119 - msg.length % 64) % 64
  msg ++ [128] ++ List.replicate padZeros 0 ++ bytesBE 8 (8 * msg.length)

/-- Split a byte list into 64-byte blocks (structural recursion on a fuel
bound so the definition reduces in the kernel). -/
def chunks64Aux : Nat → List Nat → List (List Nat)
  | 0, _ => []
  | fuel + 1, l => if l = [] then [] else l.take 64 :: chunks64Aux fuel (l.drop 64)

/-- Split a byte list into 64-byte blocks. -/
def chunks64 (l : List Nat) : List (List Nat) := chunks64Aux (l.length + 1) l

/-- The 16 message words of one 64-byte block, big-endian. -/
def blockWords (block : List Nat) : List Nat :=
  (List.range 16).map (fun i =>
    (block.getD (4 * i) 0) <<< 24 |||
    (block.getD (4 * i + 1) 0) <<< 16 |||
    (block.getD (4 * i + 2) 0) <<< 8 |||
    block.getD (4 * i + 3) 0)

/-- One step of the message-schedule extension: append
`σ1(w[t-2]) + w[t-7] + σ0(w[t-15]) + w[t-16]`. -/
def scheduleStep (ws : List Nat) : List Nat :=
  let t := ws.length
  ws ++ [add32 (add32 (smallSigma1 (ws.getD (t - 2) 0)) (ws.getD (t - 7) 0))
              (add32 (smallSigma0 (ws.getD (t - 15) 0)) (ws.getD (t - 16) 0))]

/-- Extend the 16 block words to the 64-entry message schedule. -/
def fullSchedule (w0 : List Nat) : List Nat :=
  (List.range 48).foldl (fun ws _ => scheduleStep ws) w0

/-- One round of the compression function on state `[a,b,c,d,e,f,g,h]` with
round constant and schedule word `kw`. -/
def compressStep (st : List Nat) (kw : Nat × Nat) : List Nat :=
  match st with
  | [a, b, c, d, e, f, g, h] =>
    let t1 := add32 h (add32 (bigSigma1 e) (add32 (shaCh e f g) (add32 kw.1 kw.2)))
    let t2 := add32 (bigSigma0 a) (shaMaj a b c)
    [add32 t1 t2, a, b, c, add32 d t1, e, f, g]
  | other => other

/-- Process one 64-byte block: run the 64 rounds and add the result to the
incoming hash value. -/
def processBlock (h : List Nat) (block : List Nat) : List Nat :=
  let ws := fullSchedule (blockWords block)
  let st := (shaK.zip ws).foldl compressStep h
  (h.zip st).map (fun p => add32 p.1 p.2)

/-- SHA-256 digest of a byte sequence, as 32 bytes. -/
def sha256Bytes (msg : List Nat) : List Nat :=
  let hs := (chunks64 (padMessage msg)).foldl processBlock shaH0
  (hs.map (bytesBE 4)).flatten

/-- Lower-case hex digit. -/
def hexChar (n : Nat) : Char :=
  if n < 10 then Char.ofNat (48 + n) else Char.ofNat (87 + n)

/-- Two-character lower-case hex rendering of one byte. -/
def hexOfByte (b : Nat) : String :=
  String.mk [hexChar (b / 16), hexChar (b % 16)]

/-- UTF-8 encoding of one code point. -/
def utf8EncodeCp (c : Nat) : List Nat :=
  if c < 128 then [c]
  else if c < 2048 then [192 + c / 64, 128 + c % 64]
  else if c < 65536 then [224 + c / 4096, 128 + (c / 64) % 64, 128 + c % 64]
  else [240 + c / 262144, 128 + (c / 4096) % 64, 128 + (c / 64) % 64, 128 + c % 64]

/-- The UTF-8 bytes of a string, as `Nat`s. -/
def strBytes (s : String) : List Nat :=
  ((s.data.map Char.toNat).map utf8EncodeCp).flatten

/-- Lower-case hex SHA-256 digest of a string, as Node's
`crypto.createHash('sha256').update(s).digest('hex')` computes it. -/
def sha256Hex (s : String) : String :=
  String.join ((sha256Bytes (strBytes s)).map hexOfByte)

/-! ## `crypto.createHash` call chain

`generateNodeId` and `hashContent` use Node's incremental-hash API
(`createHash('sha256').update(s).digest('hex')`); we model the hasher object
so the call chain of the source is preserved. -/

/-- A Node `crypto` hasher: the algorithm name and the accumulated input. -/
structure Hasher where
  algorithm : String
  buffered : String

/-- `crypto.createHash(alg)`. -/
def createHash (alg : String) : Hasher := ⟨alg, ""⟩

/-- `hasher.update(s)`: append to the buffered input. -/
def Hasher.update (h : Hasher) (s : String) : Hasher := ⟨h.algorithm, h.buffered ++ s⟩

/-- `hasher.digest(enc)`.  The code base only ever constructs `'sha256'`
hashers and requests `'hex'` digests, which is the case the model implements.
-/
def Hasher.digest (h : Hasher) (enc : String) : String :=
  if h.algorithm = "sha256" && enc = "hex" then sha256Hex h.buffered else ""

/-- `src/extraction/tree-sitter.ts`, `generateNodeId`: kind, a colon, and the
first 16 hex characters of the SHA-256 of `"<filePath>:<kind>:<name>:<line>"`.
(`NodeKind` is a string union in the source; we use `String`.) -/
def generateNodeId (filePath kind name : String) (line : Nat) : String :=
  let hash := (((createHash "sha256").update
      (filePath ++ ":" ++ kind ++ ":" ++ name ++ ":" ++ toString line)).digest "hex").take 16
  kind ++ ":" ++ hash

/-- `src/utils.ts` (orchestrator part), `hashContent`: SHA-256 hex digest of
the whole file content. -/
def hashContent (content : String) : String :=
  ((createHash "sha256").update content).digest "hex"

/-! ## POSIX path resolution (Node `path.resolve` / `path.join`)

The code runs `path.resolve(projectRoot, filePath)` with an absolute project
root; on POSIX this concatenates and then normalizes `.`, `..` and repeated
separators, with `..` stopping at the root.  We embed that documented
semantics. -/

/-- Process path segments left to right, maintaining the normalized stack
(in reverse): empty and `.` segments vanish, `..` pops (or vanishes at the
root of an absolute path). -/
def normalizeSegs : List String → List String → List String
  | [], acc => acc.reverse
  | "" :: rest, acc => normalizeSegs rest acc
  | "." :: rest, acc => normalizeSegs rest acc
  | ".." :: rest, acc => normalizeSegs rest (acc.drop 1)
  | s :: rest, acc => normalizeSegs rest (s :: acc)

/-- Normalize an absolute POSIX path. -/
def resolveAbs (p : String) : String :=
  "/" ++ String.intercalate "/" (normalizeSegs (splitChar '/' p) [])

/-- Node `path.resolve(root, p)` with `root` absolute: absolute `p` wins,
otherwise normalize `root ++ "/" ++ p`. -/
def pathResolve (root p : String) : String :=
  if strStartsWith p "/" then resolveAbs p else resolveAbs (root ++ "/" ++ p)

/-- `src/utils.ts`, `validatePathWithinRoot`: resolve against the project
root and return the resolved path, or `none` when the resolution escapes the
root (`path.sep` is `/` here). -/
def validatePathWithinRoot (projectRoot filePath : String) : Option String :=
  let resolved := pathResolve projectRoot filePath
  let normalizedRoot := resolveAbs projectRoot
  if ¬ (strStartsWith resolved (normalizedRoot ++ "/")) ∧ resolved ≠ normalizedRoot then
    none
  else
    some resolved

/-- `src/utils.ts`, `isPathWithinRoot`: boolean form of the lexical check. -/
def isPathWithinRoot (filePath rootDir : String) : Bool :=
  let resolvedPath := pathResolve rootDir filePath
  let resolvedRoot := resolveAbs rootDir
  strStartsWith resolvedPath (resolvedRoot ++ "/") || resolvedPath = resolvedRoot

/-- `src/utils.ts`, `isPathWithinRootReal`: the lexical check, then a
`fs.realpathSync` check; a failing `realpath` (modelled as `none`) falls back
to accepting the path.  `rp` is the filesystem's symlink resolution. -/
def isPathWithinRootReal (rp : String → Option String) (filePath rootDir : String) : Bool :=
  if ¬ isPathWithinRoot filePath rootDir then false
  else
    match rp (pathResolve rootDir filePath), rp rootDir with
    | some realPath, some realRoot =>
        strStartsWith realPath (realRoot ++ "/") || realPath = realRoot
    | _, _ => true

/-! ## JavaScript `parseInt` -/

/-- JS `parseInt(s, 10)`: skip whitespace, optional sign, then the longest
leading digit run; no digits means `NaN`, modelled as `none`. -/
def parseIntJS (s : String) : Option Int :=
  let t := (jsTrim s).data
  let (sign, rest) :=
    match t with
    | '-' :: r => ((-1 : Int), r)
    | '+' :: r => ((1 : Int), r)
    | r => ((1 : Int), r)
  let digits := rest.takeWhile Char.isDigit
  if digits = [] then none else some (sign * (digitsToNat digits : Int))

/-! ## `FileLock` (`src/utils.ts`)

The lock-file filesystem is an association list from path to file content;
`fsRead` is `fs.readFileSync` (`none` = throws), `fsUnlink` is
`fs.unlinkSync`. -/

/-- Contents of lock files, keyed by path. -/
abbrev LockFs : Type := List (String × String)

/-- `fs.readFileSync(path, 'utf-8')`; `none` models the thrown error. -/
def fsRead : LockFs → String → Option String
  | [], _ => none
  | e :: rest, p => if e.1 = p then some e.2 else fsRead rest p

/-- `fs.unlinkSync(path)`. -/
def fsUnlink : LockFs → String → LockFs
  | [], _ => []
  | e :: rest, p => if e.1 = p then fsUnlink rest p else e :: fsUnlink rest p

/-- `FileLock.release`: given the process pid, the lock path, the `held`
flag and the filesystem, return the new `held` flag and filesystem.  The
whole body after the `held` guard sits in a `try`/`catch` that swallows read
failures, so the function never throws. -/
def fileLockRelease (pid : Int) (lockPath : String) (held : Bool) (fs : LockFs) :
    Bool × LockFs :=
  if ¬ held then (held, fs)
  else
    let fs' :=
      match fsRead fs lockPath with
      | none => fs
      | some content =>
          if parseIntJS (jsTrim content) = some pid then fsUnlink fs lockPath else fs
    (false, fs')

/-! ## `WasmDatabaseAdapter.transaction`

The database is its committed statement log plus the journal of an open
transaction, with the standard SQLite meaning of `BEGIN`/`COMMIT`/`ROLLBACK`;
any other statement lands in the open journal, or is auto-committed when no
transaction is open.  The wrapped callback is modelled by the statements it
executes against the same connection plus its outcome (a JS return value or a
thrown error). -/

/-- The WASM SQLite connection state. -/
structure DbState where
  committed : List String
  txn : Option (List String)
deriving DecidableEq

/-- `db.exec(sql)` for the statements the adapter issues. -/
def dbExec (db : DbState) (sql : String) : DbState :=
  if sql = "BEGIN" then { db with txn := some [] }
  else if sql = "COMMIT" then
    match db.txn with
    | some j => { committed := db.committed ++ j, txn := none }
    | none => db
  else if sql = "ROLLBACK" then { db with txn := none }
  else
    match db.txn with
    | some j => { db with txn := some (j ++ [sql]) }
    | none => { db with committed := db.committed ++ [sql] }

/-- A callback passed to `transaction`: the statements it executes, then its
outcome (`.ok` return value or `.error` thrown value). -/
structure TxnFn (ε α : Type) where
  stmts : List String
  outcome : Except ε α

/-- Run the callback's statements against the connection. -/
def runTxnFn {ε α : Type} (db : DbState) (fn : TxnFn ε α) : DbState × Except ε α :=
  (fn.stmts.foldl dbExec db, fn.outcome)

/-- `WasmDatabaseAdapter.transaction(fn)` applied to the connection:
`BEGIN`, run `fn`, then `COMMIT` on success or `ROLLBACK` + rethrow on a
throw. -/
def wasmTransaction {ε α : Type} (db : DbState) (fn : TxnFn ε α) :
    DbState × Except ε α :=
  let db1 := dbExec db "BEGIN"
  let (db2, out) := runTxnFn db1 fn
  match out with
  | Except.ok a => (dbExec db2 "COMMIT", Except.ok a)
  | Except.error e => (dbExec db2 "ROLLBACK", Except.error e)

/-! ## Grammar registry (`src/extraction/grammars.ts`)

Grammar modules are loaded with `tryRequire`; whether each load succeeds is
host behaviour and enters the model as a predicate `loadOk` on the loaded
module key (`jsx` reuses the JavaScript module, `tsx` is the second export of
the TypeScript module).  `GRAMMAR_MAP` keeps exactly the entries whose load
succeeded; `liquid` has no entry at all. -/

/-- `grammarEntries`: language ↦ key of the `tryRequire`d grammar module. -/
def grammarEntries : List (String × String) :=
  [("typescript", "typescript"), ("tsx", "tsx"), ("javascript", "javascript"),
   ("jsx", "javascript"), ("python", "python"), ("go", "go"), ("rust", "rust"),
   ("java", "java"), ("c", "c"), ("cpp", "cpp"), ("csharp", "csharp"),
   ("php", "php"), ("ruby", "ruby"), ("swift", "swift"), ("kotlin", "kotlin"),
   ("dart", "dart")]

/-- `language in GRAMMAR_MAP` for a given set of successful grammar loads. -/
def inGrammarMap (loadOk : String → Bool) (language : String) : Bool :=
  match grammarEntries.find? (fun e => e.1 = language) with
  | some e => loadOk e.2
  | none => false

/-- `isLanguageSupported`: `liquid` is special-cased as supported (its
extraction is documented as regex-based), otherwise membership in
`GRAMMAR_MAP`. -/
def isLanguageSupported (loadOk : String → Bool) (language : String) : Bool :=
  if language = "liquid" then true
  else language ≠ "unknown" && inGrammarMap loadOk language

/-- `getParser` returns a parser exactly for the languages in `GRAMMAR_MAP`
(the cache only memoizes); this predicate is `getParser(language) !== null`.
-/
def getParserAvailable (loadOk : String → Bool) (language : String) : Bool :=
  inGrammarMap loadOk language

/-- `EXTENSION_MAP`: file extension ↦ language. -/
def EXTENSION_MAP : List (String × String) :=
  [(".ts", "typescript"), (".tsx", "tsx"), (".js", "javascript"),
   (".mjs", "javascript"), (".cjs", "javascript"), (".jsx", "jsx"),
   (".py", "python"), (".pyw", "python"), (".go", "go"), (".rs", "rust"),
   (".java", "java"), (".c", "c"), (".h", "c"), (".cpp", "cpp"),
   (".cc", "cpp"), (".cxx", "cpp"), (".hpp", "cpp"), (".hxx", "cpp"),
   (".cs", "csharp"), (".php", "php"), (".rb", "ruby"), (".rake", "ruby"),
   (".swift", "swift"), (".kt", "kotlin"), (".kts", "kotlin"),
   (".dart", "dart"), (".liquid", "liquid")]

/-- The suffix of `s` from its last `'.'` (inclusive); JS
`s.substring(s.lastIndexOf('.'))` yields the whole string when there is no
dot (`substring(-1)` clamps to 0). -/
def lastDotSuffix (s : String) : String :=
  if s.toList.contains '.' then
    String.mk ('.' :: ((s.toList.reverse.takeWhile (fun c => c ≠ '.')).reverse))
  else s

/-- `detectLanguage`: lower-cased extension looked up in `EXTENSION_MAP`,
defaulting to `unknown`. -/
def detectLanguage (filePath : String) : String :=
  let ext := jsToLower (lastDotSuffix filePath)
  match EXTENSION_MAP.find? (fun e => e.1 = ext) with
  | some e => e.2
  | none => "unknown"

/-! ## Concrete syntax trees (the `tree-sitter` `SyntaxNode` interface)

A parse tree node carries its type, its source text
(`source.substring(startIndex, endIndex)` is carried directly), the named
flag, the field name linking it to its parent, and its position.  Children
are ordered.  Preceding-comment (docstring) extraction and the per-language
metadata hooks (`getSignature`, `getVisibility`, `isExported`, `isAsync`,
`isStatic`) fill optional `Node` attributes that no claim mentions and are
not part of the embedding. -/

/-- The non-recursive data of one syntax node. -/
structure TSInfo where
  type : String
  text : String
  named : Bool
  field : Option String
  startRow : Nat
  startCol : Nat
  endRow : Nat
  endCol : Nat
deriving DecidableEq, Repr

/-- A concrete syntax tree. -/
inductive TSTree where
  | mk (info : TSInfo) (children : List TSTree)
deriving Repr

/-- The node's own data. -/
def TSTree.info : TSTree → TSInfo
  | .mk i _ => i

/-- All children, in order (`node.child(i)`). -/
def TSTree.children : TSTree → List TSTree
  | .mk _ cs => cs

mutual

/-- Number of nodes in a tree (used only to pick a sufficient recursion
fuel for the walk). -/
def TSTree.size : TSTree → Nat
  | .mk _ cs => 1 + TSTree.sizeList cs

/-- Number of nodes in a forest. -/
def TSTree.sizeList : List TSTree → Nat
  | [] => 0
  | t :: ts => TSTree.size t + TSTree.sizeList ts

end

/-- The named children, in order (`node.namedChild(i)` enumeration). -/
def TSTree.namedChildren (t : TSTree) : List TSTree :=
  t.children.filter (fun c => c.info.named)

/-- `node.childForFieldName(f)`. -/
def TSTree.childForField (t : TSTree) (f : String) : Option TSTree :=
  t.children.find? (fun c => c.info.field = some f)

/-- `node.namedChild(i)`. -/
def TSTree.namedChild (t : TSTree) (i : Nat) : Option TSTree :=
  t.namedChildren.get? i

/-- `hasChildOfType` from `TreeSitterExtractor` (scans all children). -/
def TSTree.hasChildOfType (t : TSTree) (ty : String) : Bool :=
  t.children.any (fun c => c.info.type = ty)

/-! ## Per-language extraction rule table (`EXTRACTORS`) -/

/-- The data of one `LanguageExtractor` entry: the concrete-syntax type sets
and the field names.  The optional metadata hooks are omitted (see above). -/
structure LanguageExtractor where
  functionTypes : List String
  classTypes : List String
  methodTypes : List String
  interfaceTypes : List String
  structTypes : List String
  enumTypes : List String
  importTypes : List String
  callTypes : List String
  nameField : String
  bodyField : String
  paramsField : String
  returnField : Option String
deriving Repr

/-- `EXTRACTORS.typescript`. -/
def tsExtractor : LanguageExtractor where
  functionTypes := ["function_declaration", "arrow_function", "function_expression"]
  classTypes := ["class_declaration"]
  methodTypes := ["method_definition", "public_field_definition"]
  interfaceTypes := ["interface_declaration"]
  structTypes := []
  enumTypes := ["enum_declaration"]
  importTypes := ["import_statement"]
  callTypes := ["call_expression"]
  nameField := "name"
  bodyField := "body"
  paramsField := "parameters"
  returnField := some "return_type"

/-- `EXTRACTORS.javascript`. -/
def jsExtractor : LanguageExtractor where
  functionTypes := ["function_declaration", "arrow_function", "function_expression"]
  classTypes := ["class_declaration"]
  methodTypes := ["method_definition", "field_definition"]
  interfaceTypes := []
  structTypes := []
  enumTypes := []
  importTypes := ["import_statement"]
  callTypes := ["call_expression"]
  nameField := "name"
  bodyField := "body"
  paramsField := "parameters"
  returnField := none

/-- `EXTRACTORS.python` (methods are functions inside classes). -/
def pyExtractor : LanguageExtractor where
  functionTypes := ["function_definition"]
  classTypes := ["class_definition"]
  methodTypes := ["function_definition"]
  interfaceTypes := []
  structTypes := []
  enumTypes := []
  importTypes := ["import_statement", "import_from_statement"]
  callTypes := ["call"]
  nameField := "name"
  bodyField := "body"
  paramsField := "parameters"
  returnField := some "return_type"

/-- `EXTRACTORS.go` (no classes; methods are top-level with a receiver). -/
def goExtractor : LanguageExtractor where
  functionTypes := ["function_declaration"]
  classTypes := []
  methodTypes := ["method_declaration"]
  interfaceTypes := ["interface_type"]
  structTypes := ["struct_type"]
  enumTypes := []
  importTypes := ["import_declaration"]
  callTypes := ["call_expression"]
  nameField := "name"
  bodyField := "body"
  paramsField := "parameters"
  returnField := some "result"

/-- `EXTRACTORS.rust`. -/
def rustExtractor : LanguageExtractor where
  functionTypes := ["function_item"]
  classTypes := []
  methodTypes := ["function_item"]
  interfaceTypes := ["trait_item"]
  structTypes := ["struct_item"]
  enumTypes := ["enum_item"]
  importTypes := ["use_declaration"]
  callTypes := ["call_expression"]
  nameField := "name"
  bodyField := "body"
  paramsField := "parameters"
  returnField := some "return_type"

/-- `EXTRACTORS.java`. -/
def javaExtractor : LanguageExtractor where
  functionTypes := []
  classTypes := ["class_declaration"]
  methodTypes := ["method_declaration", "constructor_declaration"]
  interfaceTypes := ["interface_declaration"]
  structTypes := []
  enumTypes := ["enum_declaration"]
  importTypes := ["import_declaration"]
  callTypes := ["method_invocation"]
  nameField := "name"
  bodyField := "body"
  paramsField := "parameters"
  returnField := some "type"

/-- `EXTRACTORS.c`. -/
def cExtractor : LanguageExtractor where
  functionTypes := ["function_definition"]
  classTypes := []
  methodTypes := []
  interfaceTypes := []
  structTypes := ["struct_specifier"]
  enumTypes := ["enum_specifier"]
  importTypes := ["preproc_include"]
  callTypes := ["call_expression"]
  nameField := "declarator"
  bodyField := "body"
  paramsField := "parameters"
  returnField := none

/-- `EXTRACTORS.cpp`. -/
def cppExtractor : LanguageExtractor where
  functionTypes := ["function_definition"]
  classTypes := ["class_specifier"]
  methodTypes := ["function_definition"]
  interfaceTypes := []
  structTypes := ["struct_specifier"]
  enumTypes := ["enum_specifier"]
  importTypes := ["preproc_include"]
  callTypes := ["call_expression"]
  nameField := "declarator"
  bodyField := "body"
  paramsField := "parameters"
  returnField := none

/-- `EXTRACTORS.csharp`. -/
def csExtractor : LanguageExtractor where
  functionTypes := []
  classTypes := ["class_declaration"]
  methodTypes := ["method_declaration", "constructor_declaration"]
  interfaceTypes := ["interface_declaration"]
  structTypes := ["struct_declaration"]
  enumTypes := ["enum_declaration"]
  importTypes := ["using_directive"]
  callTypes := ["invocation_expression"]
  nameField := "name"
  bodyField := "body"
  paramsField := "parameter_list"
  returnField := none

/-- `EXTRACTORS.php`. -/
def phpExtractor : LanguageExtractor where
  functionTypes := ["function_definition"]
  classTypes := ["class_declaration"]
  methodTypes := ["method_declaration"]
  interfaceTypes := ["interface_declaration"]
  structTypes := []
  enumTypes := ["enum_declaration"]
  importTypes := ["namespace_use_declaration"]
  callTypes := ["function_call_expression", "member_call_expression", "scoped_call_expression"]
  nameField := "name"
  bodyField := "body"
  paramsField := "parameters"
  returnField := some "return_type"

/-- `EXTRACTORS.ruby`. -/
def rubyExtractor : LanguageExtractor where
  functionTypes := ["method"]
  classTypes := ["class"]
  methodTypes := ["method", "singleton_method"]
  interfaceTypes := []
  structTypes := []
  enumTypes := []
  importTypes := ["call"]
  callTypes := ["call", "method_call"]
  nameField := "name"
  bodyField := "body"
  paramsField := "parameters"
  returnField := none

/-- `EXTRACTORS.swift`. -/
def swiftExtractor : LanguageExtractor where
  functionTypes := ["function_declaration"]
  classTypes := ["class_declaration"]
  methodTypes := ["function_declaration"]
  interfaceTypes := ["protocol_declaration"]
  structTypes := ["struct_declaration"]
  enumTypes := ["enum_declaration"]
  importTypes := ["import_declaration"]
  callTypes := ["call_expression"]
  nameField := "name"
  bodyField := "body"
  paramsField := "parameter"
  returnField := some "return_type"

/-- `EXTRACTORS.kotlin` (interfaces and enums reuse `class_declaration`). -/
def kotlinExtractor : LanguageExtractor where
  functionTypes := ["function_declaration"]
  classTypes := ["class_declaration"]
  methodTypes := ["function_declaration"]
  interfaceTypes := ["class_declaration"]
  structTypes := []
  enumTypes := ["class_declaration"]
  importTypes := ["import_header"]
  callTypes := ["call_expression"]
  nameField := "simple_identifier"
  bodyField := "function_body"
  paramsField := "function_value_parameters"
  returnField := some "type"

/-- `EXTRACTORS[language]`, with the `tsx`/`jsx` aliases; `dart` and
`liquid` have no entry. -/
def extractorFor : String → Option LanguageExtractor
  | "typescript" => some tsExtractor
  | "tsx" => some tsExtractor
  | "javascript" => some jsExtractor
  | "jsx" => some jsExtractor
  | "python" => some pyExtractor
  | "go" => some goExtractor
  | "rust" => some rustExtractor
  | "java" => some javaExtractor
  | "c" => some cExtractor
  | "cpp" => some cppExtractor
  | "csharp" => some csExtractor
  | "php" => some phpExtractor
  | "ruby" => some rubyExtractor
  | "swift" => some swiftExtractor
  | "kotlin" => some kotlinExtractor
  | _ => none

/-! ## The extraction traversal (`TreeSitterExtractor`)

The mutable fields of the `TreeSitterExtractor` instance become an explicit
state; `nodeStack` holds the innermost containing node id at its *head*
(the source uses the last array slot).  The walk recurses through children
found by field lookup, so the Lean functions take a recursion fuel; the
driver `extractRun` passes `3 * tree.size + 3`, which strictly exceeds the
nesting the walk can reach on that tree (each tree level consumes at most
three fuel steps). -/

/-- `ExtractionError` (`severity` is `'error'` or `'warning'`). -/
structure ExtractionError where
  message : String
  severity : String
deriving DecidableEq, Repr

/-- `UnresolvedReference`: a pending name-only edge.  The extractor leaves
`filePath`/`language` unset; the orchestrator denormalizes them. -/
structure UnresolvedReference where
  fromNodeId : String
  referenceName : String
  referenceKind : String
  line : Nat
  column : Nat
  filePath : Option String
  language : Option String
deriving DecidableEq, Repr

/-- A graph `Node` row, with the attributes the claims mention.  The optional
metadata attributes (`docstring`, `signature`, `visibility`, `isExported`,
`isAsync`, `isStatic`, `updatedAt` …) are filled by per-language hooks and a
wall clock and are not part of the embedding. -/
structure GNode where
  id : String
  kind : String
  name : String
  qualifiedName : String
  filePath : String
  language : String
  startLine : Nat
  endLine : Nat
  startColumn : Nat
  endColumn : Nat
deriving DecidableEq, Repr

/-- A graph `Edge` row. -/
structure GEdge where
  source : String
  target : String
  kind : String
deriving DecidableEq, Repr

/-- The mutable extraction state of one `TreeSitterExtractor` run. -/
structure ExtState where
  nodes : List GNode
  edges : List GEdge
  unresolvedReferences : List UnresolvedReference
  errors : List ExtractionError
  nodeStack : List String
deriving DecidableEq, Repr

/-- The empty starting state. -/
def ExtState.init : ExtState := ⟨[], [], [], [], []⟩

/-- The per-run constants of the extractor instance. -/
structure ExtCtx where
  filePath : String
  language : String
  ext : LanguageExtractor

/-- `extractName`: the declared name field (with the C/C++ declarator
unwrapping), else the first identifier-like named child, else the
`<anonymous>` sentinel. -/
def extractName (n : TSTree) (ext : LanguageExtractor) : String :=
  match n.childForField ext.nameField with
  | some nameNode =>
    if nameNode.info.type = "function_declarator" ∨ nameNode.info.type = "declarator" then
      match (nameNode.childForField "declarator").orElse (fun _ => nameNode.namedChild 0) with
      | some inner => inner.info.text
      | none => nameNode.info.text
    else nameNode.info.text
  | none =>
    match n.namedChildren.find? (fun c =>
        c.info.type == "identifier" || c.info.type == "type_identifier" ||
        c.info.type == "simple_identifier" || c.info.type == "constant") with
    | some c => c.info.text
    | none => "<anonymous>"

/-- `buildQualifiedName`: `filePath`, the names of the stacked containers
(outermost first), and the new name, joined with `::`. -/
def buildQualifiedName (ctx : ExtCtx) (st : ExtState) (name : String) : String :=
  String.intercalate "::"
    ([ctx.filePath] ++
      st.nodeStack.reverse.filterMap (fun nid =>
        (st.nodes.find? (fun n => n.id = nid)).map (fun n => n.name)) ++
      [name])

/-- `createNode`: build the graph node (id via `generateNodeId`, 1-based
lines), append it, and add a `contains` edge from the innermost stacked
container if any. -/
def createNode (ctx : ExtCtx) (st : ExtState) (kind name : String) (n : TSTree) :
    GNode × ExtState :=
  let id := generateNodeId ctx.filePath kind name (n.info.startRow + 1)
  let node : GNode :=
    { id := id, kind := kind, name := name,
      qualifiedName := buildQualifiedName ctx st name,
      filePath := ctx.filePath, language := ctx.language,
      startLine := n.info.startRow + 1, endLine := n.info.endRow + 1,
      startColumn := n.info.startCol, endColumn := n.info.endCol }
  let st1 := { st with nodes := st.nodes ++ [node] }
  match st1.nodeStack with
  | parentId :: _ =>
    (node, { st1 with edges := st1.edges ++ [⟨parentId, id, "contains"⟩] })
  | [] => (node, st1)

/-- `replace(/['"]/g, '')`. -/
def stripQuotes (s : String) : String :=
  String.mk (s.toList.filter (fun c => c ≠ '\'' ∧ c ≠ '"'))

/-- The module/package name `extractImport` derives from an import node:
the `source` field with quotes stripped (TS/JS), the `module_name` field or
first named child (Python), the first named child with quotes stripped (Go),
or the whole import text. -/
def importModuleName (ctx : ExtCtx) (n : TSTree) : String :=
  let importText := n.info.text
  if ctx.language = "typescript" ∨ ctx.language = "javascript" then
    match n.childForField "source" with
    | some src => stripQuotes src.info.text
    | none => ""
  else if ctx.language = "python" then
    match (n.childForField "module_name").orElse (fun _ => n.namedChild 0) with
    | some m => m.info.text
    | none => ""
  else if ctx.language = "go" then
    match n.namedChild 0 with
    | some p => stripQuotes p.info.text
    | none => ""
  else importText

/-- `extractImport`: compute the module name (per-language), then record an
unresolved `imports` reference on the innermost containing node — only when
the stack is non-empty. -/
def extractImport (ctx : ExtCtx) (st : ExtState) (n : TSTree) : ExtState :=
  let moduleName := importModuleName ctx n
  match st.nodeStack with
  | parentId :: _ =>
    if moduleName ≠ "" then
      { st with unresolvedReferences := st.unresolvedReferences ++
          [⟨parentId, moduleName, "imports", n.info.startRow + 1, n.info.startCol,
            none, none⟩] }
    else st
  | [] => st

/-- `extractCall`: record an unresolved `calls` reference on the innermost
containing node; member access yields the property name, scoped calls (and
plain callees) their full text.  Nothing is recorded at file scope. -/
def extractCall (_ctx : ExtCtx) (st : ExtState) (n : TSTree) : ExtState :=
  match st.nodeStack with
  | [] => st
  | callerId :: _ =>
    let func := (n.childForField "function").orElse (fun _ => n.namedChild 0)
    let calleeName :=
      match func with
      | none => ""
      | some f =>
        if f.info.type = "member_expression" ∨ f.info.type = "attribute" then
          match (f.childForField "property").orElse (fun _ => f.namedChild 1) with
          | some prop => prop.info.text
          | none => ""
        else if f.info.type = "scoped_identifier" ∨ f.info.type = "scoped_call_expression" then
          f.info.text
        else f.info.text
    if calleeName ≠ "" then
      { st with unresolvedReferences := st.unresolvedReferences ++
          [⟨callerId, calleeName, "calls", n.info.startRow + 1, n.info.startCol,
            none, none⟩] }
    else st

/-- `extractInheritance`: `extends`-like clauses yield one `extends`
reference from their first named child; `implements`-like clauses one
`implements` reference per named child. -/
def extractInheritance (st : ExtState) (n : TSTree) (classId : String) : ExtState :=
  n.namedChildren.foldl (fun st child =>
    let st :=
      if child.info.type = "extends_clause" ∨ child.info.type = "class_heritage" ∨
          child.info.type = "superclass" then
        match child.namedChild 0 with
        | some sup =>
          { st with unresolvedReferences := st.unresolvedReferences ++
              [⟨classId, sup.info.text, "extends", child.info.startRow + 1,
                child.info.startCol, none, none⟩] }
        | none => st
      else st
    if child.info.type = "implements_clause" ∨ child.info.type = "class_interface_clause" then
      child.namedChildren.foldl (fun st iface =>
        { st with unresolvedReferences := st.unresolvedReferences ++
            [⟨classId, iface.info.text, "implements", iface.info.startRow + 1,
              iface.info.startCol, none, none⟩] }) st
    else st) st

/-- `extractInterface`: create the node (kind `trait` for Rust), without
pushing or descending. -/
def extractInterface (ctx : ExtCtx) (st : ExtState) (n : TSTree) : ExtState :=
  let name := extractName n ctx.ext
  let kind := if ctx.language = "rust" then "trait" else "interface"
  (createNode ctx st kind name n).2

/-- `extractEnum`: create the node, without descending. -/
def extractEnum (ctx : ExtCtx) (st : ExtState) (n : TSTree) : ExtState :=
  let name := extractName n ctx.ext
  (createNode ctx st "enum" name n).2

mutual

/-- `visitNode`: classify one syntax node by the rule-table type sets, in
the source's branch order, and recurse.  Function/class/method/interface/
struct/enum branches handle their own descent (`skipChildren`); the import,
call and default branches fall through to the generic named-children walk.
-/
def visitNode (ctx : ExtCtx) : Nat → ExtState → TSTree → ExtState
  | 0, st, _ => st
  | fuel + 1, st, n =>
    let ty := n.info.type
    if ty ∈ ctx.ext.functionTypes then
      if st.nodeStack ≠ [] ∧ ty ∈ ctx.ext.methodTypes then
        extractMethod ctx fuel st n
      else
        extractFunction ctx fuel st n
    else if ty ∈ ctx.ext.classTypes then
      if ctx.language = "swift" ∧ n.hasChildOfType "struct" then
        extractStruct ctx fuel st n
      else if ctx.language = "swift" ∧ n.hasChildOfType "enum" then
        extractEnum ctx st n
      else
        extractClass ctx fuel st n
    else if ty ∈ ctx.ext.methodTypes then
      extractMethod ctx fuel st n
    else if ty ∈ ctx.ext.interfaceTypes then
      extractInterface ctx st n
    else if ty ∈ ctx.ext.structTypes then
      extractStruct ctx fuel st n
    else if ty ∈ ctx.ext.enumTypes then
      extractEnum ctx st n
    else if ty ∈ ctx.ext.importTypes then
      visitChildren ctx fuel (extractImport ctx st n) n
    else if ty ∈ ctx.ext.callTypes then
      visitChildren ctx fuel (extractCall ctx st n) n
    else
      visitChildren ctx fuel st n

/-- The generic walk over `node.namedChild(i)` when no branch consumed the
children. -/
def visitChildren (ctx : ExtCtx) : Nat → ExtState → TSTree → ExtState
  | 0, st, _ => st
  | fuel + 1, st, n => n.namedChildren.foldl (fun s c => visitNode ctx fuel s c) st

/-- `extractFunction`: skip anonymous functions; otherwise create a
`function` node, push it, scan the body for calls, pop. -/
def extractFunction (ctx : ExtCtx) : Nat → ExtState → TSTree → ExtState
  | 0, st, _ => st
  | fuel + 1, st, n =>
    let name := extractName n ctx.ext
    if name = "<anonymous>" then st
    else
      let funcNode := (createNode ctx st "function" name n).1
      let st1 := (createNode ctx st "function" name n).2
      let st2 := { st1 with nodeStack := funcNode.id :: st1.nodeStack }
      let st3 :=
        match n.childForField ctx.ext.bodyField with
        | some body => visitFunctionBody ctx fuel st2 body
        | none => st2
      { st3 with nodeStack := st3.nodeStack.drop 1 }

/-- `extractMethod`: at top level (and not Go) the node is re-dispatched to
`extractFunction`; otherwise create a `method` node, push it, scan the body
for calls, pop. -/
def extractMethod (ctx : ExtCtx) : Nat → ExtState → TSTree → ExtState
  | 0, st, _ => st
  | fuel + 1, st, n =>
    if st.nodeStack = [] ∧ ctx.language ≠ "go" then
      extractFunction ctx fuel st n
    else
      let name := extractName n ctx.ext
      let methodNode := (createNode ctx st "method" name n).1
      let st1 := (createNode ctx st "method" name n).2
      let st2 := { st1 with nodeStack := methodNode.id :: st1.nodeStack }
      let st3 :=
        match n.childForField ctx.ext.bodyField with
        | some body => visitFunctionBody ctx fuel st2 body
        | none => st2
      { st3 with nodeStack := st3.nodeStack.drop 1 }

/-- `extractClass`: create a `class` node (Swift struct/enum forms are
diverted before this point), record inheritance, push, visit every named
child of the body (or of the node itself when the body field is missing),
pop. -/
def extractClass (ctx : ExtCtx) : Nat → ExtState → TSTree → ExtState
  | 0, st, _ => st
  | fuel + 1, st, n =>
    let name := extractName n ctx.ext
    let classNode := (createNode ctx st "class" name n).1
    let st1 := (createNode ctx st "class" name n).2
    let st2 := extractInheritance st1 n classNode.id
    let st3 := { st2 with nodeStack := classNode.id :: st2.nodeStack }
    let body := (n.childForField ctx.ext.bodyField).getD n
    let st4 := body.namedChildren.foldl (fun s c => visitNode ctx fuel s c) st3
    { st4 with nodeStack := st4.nodeStack.drop 1 }

/-- `extractStruct`: like a class without inheritance, kind `struct`. -/
def extractStruct (ctx : ExtCtx) : Nat → ExtState → TSTree → ExtState
  | 0, st, _ => st
  | fuel + 1, st, n =>
    let name := extractName n ctx.ext
    let structNode := (createNode ctx st "struct" name n).1
    let st1 := (createNode ctx st "struct" name n).2
    let st2 := { st1 with nodeStack := structNode.id :: st1.nodeStack }
    let body := (n.childForField ctx.ext.bodyField).getD n
    let st3 := body.namedChildren.foldl (fun s c => visitNode ctx fuel s c) st2
    { st3 with nodeStack := st3.nodeStack.drop 1 }

/-- `visitFunctionBody` (= its inner `visitForCalls`): inside a function
body only call expressions are extracted; no nodes are ever created. -/
def visitFunctionBody (ctx : ExtCtx) : Nat → ExtState → TSTree → ExtState
  | 0, st, _ => st
  | fuel + 1, st, n =>
    let st1 := if n.info.type ∈ ctx.ext.callTypes then extractCall ctx st n else st
    n.namedChildren.foldl (fun s c => visitFunctionBody ctx fuel s c) st1

end

/-- `ExtractionResult` (the wall-clock `durationMs` is not modelled). -/
structure ExtractionResult where
  nodes : List GNode
  edges : List GEdge
  unresolvedReferences : List UnresolvedReference
  errors : List ExtractionError
deriving DecidableEq, Repr

/-- An `ExtractionResult` with empty lists and the given errors. -/
def emptyResultWith (errors : List ExtractionError) : ExtractionResult :=
  ⟨[], [], [], errors⟩

/-- The host-dependent extraction environment: which grammar loads succeeded
and what the tree-sitter parser returns (`.error` models a thrown parse
exception). -/
structure ParseEnv where
  loadOk : String → Bool
  parseResult : String → String → Except String TSTree

/-- `TreeSitterExtractor.extract` / `extractFromSource`: unsupported
languages and missing parsers yield empty results carrying a
severity-`error` entry; a parse throw yields a `Parse error`; otherwise the
walk runs from the root (and returns nothing when the language has no
`EXTRACTORS` entry). -/
def extractRun (env : ParseEnv) (filePath source language : String) :
    ExtractionResult :=
  if ¬ isLanguageSupported env.loadOk language then
    emptyResultWith [⟨"Unsupported language: " ++ language, "error"⟩]
  else if ¬ getParserAvailable env.loadOk language then
    emptyResultWith [⟨"Failed to get parser for language: " ++ language, "error"⟩]
  else
    match env.parseResult language source with
    | Except.error e =>
      emptyResultWith [⟨"Parse error: " ++ e, "error"⟩]
    | Except.ok tree =>
      match extractorFor language with
      | none => ⟨[], [], [], []⟩
      | some ext =>
        let st := visitNode ⟨filePath, language, ext⟩ (3 * tree.size + 3)
          ExtState.init tree
        ⟨st.nodes, st.edges, st.unresolvedReferences, st.errors⟩

/-! ## The graph store

The `QueryBuilder` implementation (`src/db/queries.ts`) is not among the
provided sources; its operations are modelled from the spec's store contract
(§4.3: `upsert_file`, `delete_file` cascading to the file's nodes and their
outbound edges, batch inserts, `get_file_by_path`, `get_all_files`), each
taking effect on the store as soon as it runs (autocommit) unless the caller
wraps them in `transaction(fn)`. -/

/-- A `files` table row.  `indexedAt` is a wall-clock stamp and is not
modelled; `errors = []` stands for the absent optional column. -/
structure FileRecord where
  path : String
  contentHash : String
  language : String
  size : Nat
  modifiedAt : Nat
  nodeCount : Nat
  errors : List ExtractionError
deriving DecidableEq, Repr

/-- The relational store: files, nodes, edges, unresolved references. -/
structure Store where
  files : List FileRecord
  nodes : List GNode
  edges : List GEdge
  unresolvedRefs : List UnresolvedReference
deriving DecidableEq, Repr

/-- Modelled from the spec: `get_file_by_path`. -/
def getFileByPath (s : Store) (p : String) : Option FileRecord :=
  s.files.find? (fun f => f.path = p)

/-- Modelled from the spec: `get_all_files`. -/
def getAllFiles (s : Store) : List FileRecord := s.files

/-- Modelled from the spec: `delete_file(path)` cascades — it removes the
file record, the nodes of that file, the outbound edges of those nodes, and
the file's unresolved references (they are keyed by the denormalized
`file_path`). -/
def deleteFile (s : Store) (p : String) : Store :=
  let deadIds := (s.nodes.filter (fun n => n.filePath = p)).map (fun n => n.id)
  { files := s.files.filter (fun f => f.path ≠ p),
    nodes := s.nodes.filter (fun n => n.filePath ≠ p),
    edges := s.edges.filter (fun e => ¬ deadIds.contains e.source),
    unresolvedRefs := s.unresolvedRefs.filter (fun r => r.filePath ≠ some p) }

/-- Modelled from the spec: `insert_nodes(nodes[])` (batch append). -/
def insertNodes (s : Store) (ns : List GNode) : Store :=
  { s with nodes := s.nodes ++ ns }

/-- Modelled from the spec: `insert_edges(edges[])` (batch append). -/
def insertEdges (s : Store) (es : List GEdge) : Store :=
  { s with edges := s.edges ++ es }

/-- Modelled from the spec: `insert_unresolved_refs(refs[])` (batch append).
-/
def insertUnresolvedRefsBatch (s : Store) (rs : List UnresolvedReference) : Store :=
  { s with unresolvedRefs := s.unresolvedRefs ++ rs }

/-- Modelled from the spec: `upsert_file(record)` — replace the row with the
same path, or insert. -/
def upsertFile (s : Store) (r : FileRecord) : Store :=
  if s.files.any (fun f => f.path = r.path) then
    { s with files := s.files.map (fun f => if f.path = r.path then r else f) }
  else
    { s with files := s.files ++ [r] }

/-! ## `ExtractionOrchestrator.storeExtractionResult`

The source issues the five store mutations one after the other, directly on
`this.queries`, with no `transaction(fn)` around them.  A database operation
that fails throws out of the method, leaving the operations already issued in
effect.  `failAt` injects such a failure: `some op` makes the named operation
throw when (and if) it is reached. -/

/-- The five store mutations `storeExtractionResult` can issue, in program
order. -/
inductive StoreOp where
  | deleteFileOp
  | insertNodesOp
  | insertEdgesOp
  | insertRefsOp
  | upsertFileOp
deriving DecidableEq, Repr

/-- Run one mutation of the sequence: skipped when its guard is false,
propagating an earlier failure, throwing when `failAt` names it. -/
def stepRun (failAt : Option StoreOp) (op : StoreOp) (enabled : Bool)
    (f : Store → Store) : Store × Option StoreOp → Store × Option StoreOp
  | (s, some e) => (s, some e)
  | (s, none) =>
    if enabled then
      if failAt = some op then (s, some op) else (f s, none)
    else (s, none)

/-- The file record `storeExtractionResult` builds before the upsert. -/
def mkFileRecord (filePath contentHash language : String) (size mtimeMs : Nat)
    (result : ExtractionResult) : FileRecord :=
  { path := filePath, contentHash := contentHash, language := language,
    size := size, modifiedAt := mtimeMs,
    nodeCount := result.nodes.length, errors := result.errors }

/-- The unresolved references with the file/language context denormalized in
(`ref.filePath ?? filePath`, `ref.language ?? language`). -/
def denormalizeRefs (result : ExtractionResult) (filePath language : String) :
    List UnresolvedReference :=
  result.unresolvedReferences.map (fun r =>
    { r with filePath := some (r.filePath.getD filePath),
             language := some (r.language.getD language) })

/-- `storeExtractionResult` with an injected database failure point: hash the
content; return unchanged when the stored record already has that hash;
otherwise delete the stale file (if any), insert nodes, insert edges, insert
the denormalized unresolved references, and upsert the file record — each
step only when its guard holds, and stopping at the first failing step. -/
def storeExtractionResultFail (failAt : Option StoreOp) (st : Store)
    (filePath content language : String) (size mtimeMs : Nat)
    (result : ExtractionResult) : Store × Option StoreOp :=
  let contentHash := hashContent content
  let existingFile := getFileByPath st filePath
  if existingFile.map (fun f => f.contentHash) = some contentHash then
    (st, none)
  else
    let r1 := stepRun failAt StoreOp.deleteFileOp existingFile.isSome
      (fun s => deleteFile s filePath) (st, none)
    let r2 := stepRun failAt StoreOp.insertNodesOp (result.nodes ≠ [])
      (fun s => insertNodes s result.nodes) r1
    let r3 := stepRun failAt StoreOp.insertEdgesOp (result.edges ≠ [])
      (fun s => insertEdges s result.edges) r2
    let r4 := stepRun failAt StoreOp.insertRefsOp (result.unresolvedReferences ≠ [])
      (fun s => insertUnresolvedRefsBatch s (denormalizeRefs result filePath language)) r3
    stepRun failAt StoreOp.upsertFileOp true
      (fun s => upsertFile s (mkFileRecord filePath contentHash language size mtimeMs result)) r4

/-- `storeExtractionResult` on the failure-free path, as the indexing
pipeline runs it. -/
def storeExtractionResult (st : Store) (filePath content language : String)
    (size mtimeMs : Nat) (result : ExtractionResult) : Store :=
  (storeExtractionResultFail none st filePath content language size mtimeMs result).1

/-- Run a sequence of guarded store mutations in order, stopping — with the
already-performed mutations kept — at the first one `failAt` makes fail.
(The reference semantics autocommitted sequential execution is compared
against.) -/
def applyUntil (failAt : Option StoreOp) :
    List (StoreOp × Bool × (Store → Store)) → Store → Store × Option StoreOp
  | [], s => (s, none)
  | step :: rest, s =>
    if step.2.1 then
      if failAt = some step.1 then (s, some step.1)
      else applyUntil failAt rest (step.2.2 s)
    else applyUntil failAt rest s

/-- The guarded mutation sequence `storeExtractionResult` issues (in program
order) once the unchanged-hash early return did not fire. -/
def mutationSeq (st : Store) (filePath content language : String)
    (size mtimeMs : Nat) (result : ExtractionResult) :
    List (StoreOp × Bool × (Store → Store)) :=
  let contentHash := hashContent content
  let existingFile := getFileByPath st filePath
  [(StoreOp.deleteFileOp, existingFile.isSome, fun s => deleteFile s filePath),
   (StoreOp.insertNodesOp, result.nodes ≠ [], fun s => insertNodes s result.nodes),
   (StoreOp.insertEdgesOp, result.edges ≠ [], fun s => insertEdges s result.edges),
   (StoreOp.insertRefsOp, result.unresolvedReferences ≠ [],
     fun s => insertUnresolvedRefsBatch s (denormalizeRefs result filePath language)),
   (StoreOp.upsertFileOp, true,
     fun s => upsertFile s (mkFileRecord filePath contentHash language size mtimeMs result))]

/-! ## Configuration, disk and scanning -/

/-- `CodeGraphConfig` (the fields the indexing pipeline reads).  The source
fields are named `include`/`exclude`; `include` is a Lean keyword, hence the
`Globs` suffix. -/
structure CodeGraphConfig where
  includeGlobs : List String
  excludeGlobs : List String
  maxFileSize : Nat

/-- `normalizePath` is imported from the utils module (not among the provided
sources); modelled from its use as Windows-separator normalization. -/
def normalizePath (s : String) : String :=
  String.mk (s.data.map (fun c => if c = '\\' then '/' else c))

/-- `matchesGlob` defers to the external `picomatch` matcher `m` after
normalizing the path. -/
def matchesGlob (m : String → String → Bool) (filePath pattern : String) : Bool :=
  m (normalizePath filePath) pattern

/-- `shouldIncludeFile`: exclude patterns win, then include patterns, default
reject. -/
def shouldIncludeFile (m : String → String → Bool) (config : CodeGraphConfig)
    (filePath : String) : Bool :=
  if config.excludeGlobs.any (fun pat => matchesGlob m filePath pat) then false
  else config.includeGlobs.any (fun pat => matchesGlob m filePath pat)

/-- One file on disk, by project-relative path.  `size`/`mtimeMs` model
`fs.stat`. -/
structure DiskFile where
  relPath : String
  content : String
  size : Nat
  mtimeMs : Nat
deriving DecidableEq, Repr

/-- The project tree as a flat list of files (the walk's symlink handling and
cycle set are not representable in a flat snapshot and are outside the
model). -/
abbrev Disk : Type := List DiskFile

/-- Reading the file a clean relative path addresses. -/
def diskFind (disk : Disk) (p : String) : Option DiskFile :=
  disk.find? (fun d => d.relPath = p)

/-- The external collaborators of scanning and syncing: the glob matcher,
grammar loads, the parser, and what `git` answers (`none` = git unavailable
or failed, triggering the fallbacks). -/
structure SyncEnv where
  m : String → String → Bool
  loadOk : String → Bool
  parseResult : String → String → Except String TSTree
  gitLsFiles : Option (List String)
  gitStatusLines : Option (List (String × String))
  markers : List String

/-- The proper directory prefixes of a relative path
(`"a/b/c.ts" ↦ ["a", "a/b"]`). -/
def dirPrefixes (p : String) : List String :=
  let segs := splitChar '/' p
  (List.range (segs.length - 1)).map (fun k => String.intercalate "/" (segs.take (k + 1)))

/-- The walk's directory pruning: an exclude glob matching the directory path
or the path with a trailing separator. -/
def dirExcluded (m : String → String → Bool) (config : CodeGraphConfig)
    (d : String) : Bool :=
  config.excludeGlobs.any (fun pat => matchesGlob m (d ++ "/") pat || matchesGlob m d pat)

/-- `scanDirectoryWalk` flattened over the disk snapshot: a file is produced
iff no ancestor directory is pruned (excluded or carrying the
`.codegraphignore` marker; `""` marks the root) and the file passes the
include/exclude config. -/
def scanDirectoryWalk (env : SyncEnv) (config : CodeGraphConfig) (disk : Disk) :
    List String :=
  (disk.filter (fun f =>
    ¬ env.markers.contains "" &&
    (dirPrefixes f.relPath).all (fun d =>
      ¬ dirExcluded env.m config d && ¬ env.markers.contains d) &&
    shouldIncludeFile env.m config f.relPath)).map (fun f => f.relPath)

/-- `scanDirectory`: `git ls-files` fast path filtered by the config, else
the filesystem walk. -/
def scanDirectory (env : SyncEnv) (config : CodeGraphConfig) (disk : Disk) :
    List String :=
  match env.gitLsFiles with
  | some gitFiles => gitFiles.filter (fun p => shouldIncludeFile env.m config p)
  | none => scanDirectoryWalk env config disk

/-- `git status --porcelain` classified: `??` added, a `D` in the code
deleted, everything else modified. -/
structure GitChanges where
  modified : List String
  added : List String
  deleted : List String
deriving Repr

/-- `getGitChangedFiles`: parse the porcelain lines (already split into
status code and path), keep only config-included paths, and classify. -/
def getGitChangedFiles (env : SyncEnv) (config : CodeGraphConfig) :
    Option GitChanges :=
  env.gitStatusLines.map (fun lines =>
    lines.foldl (fun gc line =>
      let p := normalizePath line.2
      if ¬ shouldIncludeFile env.m config p then gc
      else if line.1 = "??" then { gc with added := gc.added ++ [p] }
      else if containsChar line.1 'D' then { gc with deleted := gc.deleted ++ [p] }
      else { gc with modified := gc.modified ++ [p] }) ⟨[], [], []⟩)

/-! ## `ExtractionOrchestrator.indexFile` and `sync` -/

/-- `indexFileWithContent`: path validation, size gate, language gate,
extraction, then `storeExtractionResult` when the result has nodes or no
errors. -/
def indexFileWithContent (env : SyncEnv) (rootDir : String)
    (config : CodeGraphConfig) (store : Store) (relPath content : String)
    (size mtimeMs : Nat) : ExtractionResult × Store :=
  match validatePathWithinRoot rootDir relPath with
  | none => (emptyResultWith [⟨"Path traversal blocked", "error"⟩], store)
  | some _ =>
    if size > config.maxFileSize then
      (emptyResultWith [⟨"File exceeds max size (" ++ toString size ++ " > " ++
        toString config.maxFileSize ++ ")", "warning"⟩], store)
    else
      let language := detectLanguage relPath
      if ¬ isLanguageSupported env.loadOk language then
        (⟨[], [], [], []⟩, store)
      else
        let result := extractRun ⟨env.loadOk, env.parseResult⟩ relPath content language
        if result.nodes ≠ [] ∨ result.errors = [] then
          (result, storeExtractionResult store relPath content language size mtimeMs result)
        else (result, store)

/-- `indexFile`: validate the relative path against the root (rejecting with
an error and *without touching the filesystem*), read content and stats of
the file the resolved path addresses, and defer to `indexFileWithContent`.
-/
def indexFile (env : SyncEnv) (rootDir : String) (config : CodeGraphConfig)
    (disk : Disk) (store : Store) (relPath : String) : ExtractionResult × Store :=
  match validatePathWithinRoot rootDir relPath with
  | none =>
    (emptyResultWith [⟨"Path traversal blocked: " ++ relPath, "error"⟩], store)
  | some _ =>
    match diskFind disk relPath with
    | none =>
      (emptyResultWith [⟨"Failed to read file: ENOENT", "error"⟩], store)
    | some d =>
      indexFileWithContent env rootDir config store relPath d.content d.size d.mtimeMs

/-- `SyncResult` (the wall-clock `durationMs` is not modelled;
`changedFilePaths` is the plain list, `undefined`-when-empty being a
serialization detail). -/
structure SyncResult where
  filesChecked : Nat
  filesAdded : Nat
  filesModified : Nat
  filesRemoved : Nat
  nodesUpdated : Nat
  changedFilePaths : List String
deriving DecidableEq, Repr

/-- The classification accumulator of the two `sync` loops. -/
structure SyncAcc where
  toIndex : List String
  changed : List String
  added : Nat
  modified : Nat
deriving Repr

/-- Classify one on-disk file against a store lookup result, as both `sync`
loops do: unknown path → added, hash mismatch → modified, otherwise skip. -/
def classifyFile (acc : SyncAcc) (p : String) (d : DiskFile)
    (tracked : Option FileRecord) : SyncAcc :=
  let contentHash := hashContent d.content
  match tracked with
  | none =>
    { acc with toIndex := acc.toIndex ++ [p], changed := acc.changed ++ [p],
               added := acc.added + 1 }
  | some t =>
    if t.contentHash ≠ contentHash then
      { acc with toIndex := acc.toIndex ++ [p], changed := acc.changed ++ [p],
                 modified := acc.modified + 1 }
    else acc

/-- One step of the indexing loop: index the file, thread the store, count
the produced nodes. -/
def indexStep (env : SyncEnv) (rootDir : String) (config : CodeGraphConfig)
    (disk : Disk) (acc : Store × Nat) (p : String) : Store × Nat :=
  ((indexFile env rootDir config disk acc.1 p).2,
    acc.2 + ((indexFile env rootDir config disk acc.1 p).1).nodes.length)

/-- The indexing loop shared by both `sync` paths: index each changed file,
accumulating `nodesUpdated`. -/
def syncIndexLoop (env : SyncEnv) (rootDir : String) (config : CodeGraphConfig)
    (disk : Disk) (start : Store) (toIndex : List String) : Store × Nat :=
  toIndex.foldl (indexStep env rootDir config disk) (start, 0)

/-- One step of the fallback's stale-record sweep: delete the record when its
file is no longer among the scanned paths. -/
def delStep (currentFiles : List String) (acc : Store × Nat) (t : FileRecord) :
    Store × Nat :=
  if t.path ∈ currentFiles then acc else (deleteFile acc.1 t.path, acc.2 + 1)

/-- One step of the git path's deletion sweep: remove a reported deletion
when it is tracked. -/
def gitDelStep (acc : Store × Nat) (p : String) : Store × Nat :=
  match getFileByPath acc.1 p with
  | some _ => (deleteFile acc.1 p, acc.2 + 1)
  | none => acc

/-- One step of the classification loops: read the file, then classify
against the given store lookup (unreadable files are skipped). -/
def classifyStep (disk : Disk) (track : String → Option FileRecord)
    (acc : SyncAcc) (p : String) : SyncAcc :=
  match diskFind disk p with
  | none => acc
  | some d => classifyFile acc p d (track p)

/-- The `git status` fast path of `sync`: drop reported deletions that are
tracked, re-hash reported modifications against the live store, index all
untracked additions.  Only the files git reports are looked at. -/
def syncGitPath (env : SyncEnv) (rootDir : String) (config : CodeGraphConfig)
    (disk : Disk) (store : Store) (gc : GitChanges) : SyncResult × Store :=
  let filesChecked := gc.modified.length + gc.added.length + gc.deleted.length
  let delRes := gc.deleted.foldl gitDelStep (store, 0)
  let acc1 := gc.modified.foldl
    (classifyStep disk (fun p => getFileByPath delRes.1 p)) ⟨[], [], 0, 0⟩
  let acc2 : SyncAcc :=
    { toIndex := acc1.toIndex ++ gc.added, changed := acc1.changed ++ gc.added,
      added := acc1.added + gc.added.length, modified := acc1.modified }
  let idxRes := syncIndexLoop env rootDir config disk delRes.1 acc2.toIndex
  ({ filesChecked := filesChecked, filesAdded := acc2.added,
     filesModified := acc2.modified, filesRemoved := delRes.2,
     nodesUpdated := idxRes.2, changedFilePaths := acc2.changed }, idxRes.1)

/-- The full-scan fallback of `sync`: rescan, delete records whose file is
gone, classify every scanned file against the pre-deletion snapshot, and
re-index new or changed files. -/
def syncFallback (env : SyncEnv) (rootDir : String) (config : CodeGraphConfig)
    (disk : Disk) (store : Store) : SyncResult × Store :=
  let currentFiles := scanDirectory env config disk
  let filesChecked := currentFiles.length
  let trackedFiles := getAllFiles store
  let delRes := trackedFiles.foldl (delStep currentFiles) (store, 0)
  let acc1 := currentFiles.foldl
    (classifyStep disk (fun p => trackedFiles.find? (fun f => f.path = p))) ⟨[], [], 0, 0⟩
  let idxRes := syncIndexLoop env rootDir config disk delRes.1 acc1.toIndex
  ({ filesChecked := filesChecked, filesAdded := acc1.added,
     filesModified := acc1.modified, filesRemoved := delRes.2,
     nodesUpdated := idxRes.2, changedFilePaths := acc1.changed }, idxRes.1)

/-- `ExtractionOrchestrator.sync`: the `git status` fast path reconciles only
the files git reports (deletions dropped if tracked in the store, modified
files re-hashed, untracked files indexed); the fallback rescans everything,
deletes records whose file is gone, and re-indexes new or changed files. -/
def syncRun (env : SyncEnv) (rootDir : String) (config : CodeGraphConfig)
    (disk : Disk) (store : Store) : SyncResult × Store :=
  match getGitChangedFiles env config with
  | some gc => syncGitPath env rootDir config disk store gc
  | none => syncFallback env rootDir config disk store

/-! ## Concrete fixtures used by the counterexamples -/

/-- A one-node extraction result (with one containment edge) for exercising
the store sequence. -/
def exNode : GNode :=
  ⟨"function:aaaa", "function", "f", "a.ts::f", "a.ts", "typescript", 1, 2, 0, 0⟩

/-- An edge for the same result. -/
def exEdge : GEdge := ⟨"file:bbbb", "function:aaaa", "contains"⟩

/-- The extraction result inserted in the C1 scenario. -/
def exResult : ExtractionResult := ⟨[exNode], [exEdge], [], []⟩

/-- Shorthand for a syntax-node info at position zero. -/
def mkInfo (ty tx : String) (named : Bool) (f : Option String) : TSInfo :=
  ⟨ty, tx, named, f, 0, 0, 0, 0⟩

/-- The extractor context of a TypeScript file. -/
def ctxTS : ExtCtx := ⟨"a.ts", "typescript", tsExtractor⟩

/-- A top-level `import x from './x'` statement node. -/
def tsImportNode : TSTree :=
  .mk (mkInfo "import_statement" "import x from './x'" true none)
    [.mk (mkInfo "string" "'./x'" true (some "source")) []]

/-- A TypeScript program whose only statement is a top-level import. -/
def tsImportTree : TSTree :=
  .mk (mkInfo "program" "import x from './x'" true none) [tsImportNode]

/-- A Python function `inner` nested in the body of `outer`. -/
def pyInner : TSTree :=
  .mk (mkInfo "function_definition" "def inner(): pass" true none)
    [.mk (mkInfo "identifier" "inner" true (some "name")) [],
     .mk (mkInfo "block" "pass" true (some "body")) []]

/-- The enclosing Python function `outer`. -/
def pyOuter : TSTree :=
  .mk (mkInfo "function_definition" "def outer(): ..." true none)
    [.mk (mkInfo "identifier" "outer" true (some "name")) [],
     .mk (mkInfo "block" "def inner(): pass" true (some "body")) [pyInner]]

/-- A Python module holding only `outer` (with `inner` nested inside it). -/
def pyNestedTree : TSTree :=
  .mk (mkInfo "module" "def outer(): ..." true none) [pyOuter]

/-- An empty TypeScript program tree (parses cleanly, extracts nothing). -/
def progTree : TSTree := .mk (mkInfo "program" "" true none) []

/-! # Theorems -/

/-! ## Node-id generation (claim C5) -/

/-- C5: the generated node id is the kind, a colon, and the first 16 hex
characters of the SHA-256 digest of the colon-joined
`(file_path, kind, name, start_line)`; and the id is a pure function of
those four inputs — equal inputs (also across runs) give equal ids. -/
theorem generateNodeId_digest16 (fp kind name : String) (line : Nat)
    (fp' kind' name' : String) (line' : Nat)
    (h1 : fp = fp') (h2 : kind = kind') (h3 : name = name') (h4 : line = line') :
    generateNodeId fp kind name line =
      kind ++ ":" ++
        (sha256Hex (fp ++ ":" ++ kind ++ ":" ++ name ++ ":" ++ toString line)).take 16 ∧
    generateNodeId fp kind name line = generateNodeId fp' kind' name' line' := by
  subst h1 h2 h3 h4
  refine ⟨?_, rfl⟩
  simp [generateNodeId, createHash, Hasher.update, Hasher.digest, String.empty_append]

/-- Witness for C5 at `("src/a.ts", "function", "hello", 3)`. -/
theorem generateNodeId_digest16_witness :
    ("src/a.ts" : String) = "src/a.ts" ∧
    (generateNodeId "src/a.ts" "function" "hello" 3 =
      "function" ++ ":" ++
        (sha256Hex ("src/a.ts" ++ ":" ++ "function" ++ ":" ++ "hello" ++ ":" ++
          toString 3)).take 16 ∧
    generateNodeId "src/a.ts" "function" "hello" 3 =
      generateNodeId "src/a.ts" "function" "hello" 3) :=
  ⟨rfl, generateNodeId_digest16 "src/a.ts" "function" "hello" 3
    "src/a.ts" "function" "hello" 3 rfl rfl rfl rfl⟩

/-! ## Missing parser for a supported language (claim C4)

`isLanguageSupported` special-cases `liquid` as supported, but `liquid` has
no `GRAMMAR_MAP` entry, so `getParser` returns null and
`TreeSitterExtractor.extract` takes the missing-parser branch — which
returns an empty result carrying a severity-`error` entry, for every host
(`loadOk`) and every source.  The comment in `grammars.ts` ("Liquid
extraction is handled separately via regex in tree-sitter.ts") describes
handling that does not exist in `tree-sitter.ts`; the indexer also leaves
such a file counted neither as indexed nor as skipped and marks the run
unsuccessful. -/

/-- C4: for a `.liquid` file the language is reported supported while no
parser is available, and extraction returns the empty result *with* a
severity-`error` entry — not an error-free skip. -/
theorem liquid_supported_without_parser_errors
    (loadOk : String → Bool) (parse : String → String → Except String TSTree)
    (source : String) :
    detectLanguage "template.liquid" = "liquid" ∧
    isLanguageSupported loadOk "liquid" = true ∧
    getParserAvailable loadOk "liquid" = false ∧
    extractRun ⟨loadOk, parse⟩ "template.liquid" source "liquid" =
      emptyResultWith [⟨"Failed to get parser for language: liquid", "error"⟩] ∧
    (extractRun ⟨loadOk, parse⟩ "template.liquid" source "liquid").errors.map
        (fun e => e.severity) = ["error"] :=
  ⟨rfl, rfl, rfl, rfl, rfl⟩

/-! ## The WASM transaction wrapper (claim C10) -/

/-- Executing a non-transaction-control statement inside an open journal
appends it. -/
theorem dbExec_journals (db : DbState) (s : String) (j : List String)
    (h1 : s ≠ "BEGIN") (h2 : s ≠ "COMMIT") (h3 : s ≠ "ROLLBACK")
    (hj : db.txn = some j) :
    dbExec db s = { db with txn := some (j ++ [s]) } := by
  simp [dbExec, h1, h2, h3, hj]

/-- A statement run with no transaction-control statements keeps the
committed log unchanged and extends the journal. -/
theorem foldl_dbExec_journals (stmts : List String) :
    ∀ (C j : List String),
      (∀ s ∈ stmts, s ≠ "BEGIN" ∧ s ≠ "COMMIT" ∧ s ≠ "ROLLBACK") →
      stmts.foldl dbExec ⟨C, some j⟩ = ⟨C, some (j ++ stmts)⟩ := by
  induction stmts with
  | nil => intro C j _; simp
  | cons s rest ih =>
    intro C j h
    have hs := h s (by simp)
    have hstep : dbExec ⟨C, some j⟩ s = ⟨C, some (j ++ [s])⟩ :=
      dbExec_journals ⟨C, some j⟩ s j hs.1 hs.2.1 hs.2.2 rfl
    calc (s :: rest).foldl dbExec ⟨C, some j⟩
        = rest.foldl dbExec ⟨C, some (j ++ [s])⟩ := by rw [List.foldl_cons, hstep]
      _ = ⟨C, some ((j ++ [s]) ++ rest)⟩ := ih C (j ++ [s]) (fun x hx => h x (by simp [hx]))
      _ = ⟨C, some (j ++ s :: rest)⟩ := by simp

/-- C10: with no transaction already open and a callback that issues no
transaction-control statements of its own, the wrapper built by
`WasmDatabaseAdapter.transaction` runs the callback's statements between
`BEGIN` and `COMMIT` — a successful run commits them all together — and on a
throw issues `ROLLBACK` and rethrows the original error, leaving the
database state exactly as before. -/
theorem wasmTransaction_atomic {ε α : Type} (db : DbState) (fn : TxnFn ε α)
    (h0 : db.txn = none)
    (hs : ∀ s ∈ fn.stmts, s ≠ "BEGIN" ∧ s ≠ "COMMIT" ∧ s ≠ "ROLLBACK") :
    (∀ a, fn.outcome = Except.ok a →
      wasmTransaction db fn = (⟨db.committed ++ fn.stmts, none⟩, Except.ok a)) ∧
    (∀ e, fn.outcome = Except.error e →
      wasmTransaction db fn = (db, Except.error e)) := by
  obtain ⟨C, txn⟩ := db
  subst h0
  have hbegin : dbExec ⟨C, none⟩ "BEGIN" = ⟨C, some []⟩ := rfl
  have hrun : fn.stmts.foldl dbExec ⟨C, some []⟩ = ⟨C, some fn.stmts⟩ := by
    simpa using foldl_dbExec_journals fn.stmts C [] hs
  constructor
  · intro a ha
    simp [wasmTransaction, runTxnFn, hbegin, hrun, ha, dbExec]
  · intro e he
    simp [wasmTransaction, runTxnFn, hbegin, hrun, he, dbExec]

/-- Witness for C10: a two-statement callback that throws leaves the
database unchanged; the same statements with a successful outcome commit
together. -/
theorem wasmTransaction_atomic_witness :
    ((⟨["s0"], none⟩ : DbState).txn = none ∧
      ∀ s ∈ ["i1", "i2"], s ≠ "BEGIN" ∧ s ≠ "COMMIT" ∧ s ≠ "ROLLBACK") ∧
    wasmTransaction (⟨["s0"], none⟩ : DbState)
        (⟨["i1", "i2"], Except.error "boom"⟩ : TxnFn String Unit) =
      (⟨["s0"], none⟩, Except.error "boom") := by
  refine ⟨⟨rfl, by decide⟩, ?_⟩
  exact (wasmTransaction_atomic ⟨["s0"], none⟩ ⟨["i1", "i2"], Except.error "boom"⟩
    rfl (by decide)).2 "boom" rfl

/-! ## Per-file store mutations are not one transaction (claim C1) -/

/-- A failed step sequence stays failed. -/
theorem foldl_stepRun_error (failAt : Option StoreOp)
    (seq : List (StoreOp × Bool × (Store → Store))) (s : Store) (e : StoreOp) :
    seq.foldl (fun r step => stepRun failAt step.1 step.2.1 step.2.2 r) (s, some e) =
      (s, some e) := by
  induction seq with
  | nil => rfl
  | cons step rest ih => simpa [stepRun] using ih

/-- The `stepRun` chain is the guarded sequential execution `applyUntil`. -/
theorem foldl_stepRun_eq_applyUntil (failAt : Option StoreOp)
    (seq : List (StoreOp × Bool × (Store → Store))) :
    ∀ s : Store,
      seq.foldl (fun r step => stepRun failAt step.1 step.2.1 step.2.2 r) (s, none) =
        applyUntil failAt seq s := by
  induction seq with
  | nil => intro s; rfl
  | cons step rest ih =>
    intro s
    rw [List.foldl_cons]
    by_cases hen : step.2.1
    · by_cases hf : failAt = some step.1
      · have h1 : stepRun failAt step.1 step.2.1 step.2.2 (s, none) = (s, some step.1) := by
          simp [stepRun, hen, hf]
        rw [h1, foldl_stepRun_error]
        simp [applyUntil, hen, hf]
      · have h1 : stepRun failAt step.1 step.2.1 step.2.2 (s, none) = (step.2.2 s, none) := by
          simp [stepRun, hen, hf]
        rw [h1, ih]
        simp [applyUntil, hen, hf]
    · have h1 : stepRun failAt step.1 step.2.1 step.2.2 (s, none) = (s, none) := by
        simp [stepRun, hen]
      rw [h1, ih]
      simp [applyUntil, hen]

/-- C1 (amended): when the unchanged-hash early return does not fire,
`storeExtractionResult` is the *sequential, autocommitted* execution of its
five guarded mutations (stale delete, node insert, edge insert, unresolved
ref insert, file upsert): a database operation that fails part-way leaves
every earlier mutation applied and every later one unapplied — there is no
enclosing transaction; only a failure-free run applies all of them. -/
theorem storeExtractionResult_sequential (failAt : Option StoreOp) (st : Store)
    (filePath content language : String) (size mtimeMs : Nat)
    (result : ExtractionResult)
    (hne : (getFileByPath st filePath).map (fun f => f.contentHash) ≠
      some (hashContent content)) :
    storeExtractionResultFail failAt st filePath content language size mtimeMs result =
      applyUntil failAt (mutationSeq st filePath content language size mtimeMs result) st := by
  rw [← foldl_stepRun_eq_applyUntil]
  simp only [storeExtractionResultFail, mutationSeq, if_neg hne]
  rfl

/-- Witness for the amended C1 at a concrete input (no stale record, one
node, one edge; the failure-free run). -/
theorem storeExtractionResult_sequential_witness :
    ((getFileByPath ⟨[], [], [], []⟩ "a.ts").map (fun f => f.contentHash) ≠
      some (hashContent "body")) ∧
    storeExtractionResultFail none ⟨[], [], [], []⟩ "a.ts" "body" "typescript" 4 0 exResult =
      applyUntil none (mutationSeq ⟨[], [], [], []⟩ "a.ts" "body" "typescript" 4 0 exResult)
        ⟨[], [], [], []⟩ :=
  ⟨by simp [getFileByPath],
    storeExtractionResult_sequential none ⟨[], [], [], []⟩ "a.ts" "body" "typescript" 4 0
      exResult (by simp [getFileByPath])⟩

/-- C1 (counterexample): with an empty store, a result holding one node and
one edge, and the edge insert failing, the run ends with the node inserted
but neither the edge nor the file record — the claimed all-or-nothing
atomicity does not hold. -/
theorem storeExtractionResult_not_atomic :
    storeExtractionResultFail (some StoreOp.insertEdgesOp) ⟨[], [], [], []⟩
        "a.ts" "body" "typescript" 4 0 exResult =
      (⟨[], [exNode], [], []⟩, some StoreOp.insertEdgesOp) ∧
    (⟨[], [exNode], [], []⟩ : Store).nodes ≠ [] ∧
    (⟨[], [exNode], [], []⟩ : Store).files = [] ∧
    (⟨[], [exNode], [], []⟩ : Store).edges = [] := by
  refine ⟨?_, by simp [exNode], rfl, rfl⟩
  rfl

/-! ## Re-indexing an unchanged file is a store no-op (claim C6) -/

/-- C6: when the store already holds a file record whose content hash equals
the hash of the current content, `storeExtractionResult` early-returns
before any delete or insert — even a failing database operation is never
reached — and the whole of `indexFileWithContent` leaves the store exactly
as it was. -/
theorem reindex_unchanged_noop (env : SyncEnv) (rootDir : String)
    (config : CodeGraphConfig) (store : Store) (relPath content : String)
    (size mtimeMs : Nat) (r : FileRecord)
    (hfind : getFileByPath store relPath = some r)
    (hhash : r.contentHash = hashContent content) :
    (indexFileWithContent env rootDir config store relPath content size mtimeMs).2 = store ∧
    (∀ failAt lang result,
      storeExtractionResultFail failAt store relPath content lang size mtimeMs result =
        (store, none)) := by
  have hstore : ∀ failAt lang result,
      storeExtractionResultFail failAt store relPath content lang size mtimeMs result =
        (store, none) := by
    intro failAt lang result
    simp [storeExtractionResultFail, hfind, hhash]
  refine ⟨?_, hstore⟩
  unfold indexFileWithContent
  cases validatePathWithinRoot rootDir relPath with
  | none => rfl
  | some full =>
    simp only
    by_cases hsz : size > config.maxFileSize
    · simp [hsz]
    · simp only [hsz, if_false]
      by_cases hlang : isLanguageSupported env.loadOk (detectLanguage relPath)
      · simp only [hlang, not_true, if_false, if_true]
        by_cases hgo : (extractRun ⟨env.loadOk, env.parseResult⟩ relPath content
            (detectLanguage relPath)).nodes ≠ [] ∨
            (extractRun ⟨env.loadOk, env.parseResult⟩ relPath content
              (detectLanguage relPath)).errors = []
        · simp only [hgo, if_true, storeExtractionResult]
          rw [hstore]
        · simp [hgo]
      · simp [hlang]

/-- Witness for C6: a store holding the record of `a.ts` at the hash of
`"content"`, re-indexed with the same content, is returned unchanged. -/
theorem reindex_unchanged_noop_witness :
    (getFileByPath
        ⟨[⟨"a.ts", hashContent "content", "typescript", 7, 0, 1, []⟩], [], [], []⟩
        "a.ts" =
      some ⟨"a.ts", hashContent "content", "typescript", 7, 0, 1, []⟩ ∧
      (⟨"a.ts", hashContent "content", "typescript", 7, 0, 1, []⟩ :
        FileRecord).contentHash = hashContent "content") ∧
    (indexFileWithContent ⟨fun _ _ => true, fun _ => true, fun _ _ => Except.error "x",
        none, none, []⟩ "/proj" ⟨["**/*"], [], 100⟩
        ⟨[⟨"a.ts", hashContent "content", "typescript", 7, 0, 1, []⟩], [], [], []⟩
        "a.ts" "content" 7 0).2 =
      ⟨[⟨"a.ts", hashContent "content", "typescript", 7, 0, 1, []⟩], [], [], []⟩ :=
  ⟨⟨rfl, rfl⟩,
    (reindex_unchanged_noop ⟨fun _ _ => true, fun _ => true, fun _ _ => Except.error "x",
        none, none, []⟩ "/proj" ⟨["**/*"], [], 100⟩
        ⟨[⟨"a.ts", hashContent "content", "typescript", 7, 0, 1, []⟩], [], [], []⟩
        "a.ts" "content" 7 0
        ⟨"a.ts", hashContent "content", "typescript", 7, 0, 1, []⟩ rfl rfl).1⟩

/-! ## `FileLock.release` (claim C9) -/

/-- Unlinking one path does not change reads of any other path. -/
theorem fsRead_unlink_ne (fs : LockFs) (p q : String) (h : q ≠ p) :
    fsRead (fsUnlink fs p) q = fsRead fs q := by
  induction fs with
  | nil => rfl
  | cons e rest ih =>
    have hpq : ¬ p = q := fun hh => h hh.symm
    by_cases hep : e.1 = p
    · have heq : ¬ e.1 = q := fun hq => h (hq ▸ hep)
      simp [fsUnlink, fsRead, hep, heq, ih, hpq]
    · by_cases heq : e.1 = q
      · simp [fsUnlink, fsRead, hep, heq, h]
      · simp [fsUnlink, fsRead, hep, heq, ih]

/-- C9: `release` removes the lock file exactly when this instance holds the
lock and the file still parses to the current pid; a missing/unreadable file
or a foreign pid leaves the filesystem untouched; the `held` flag is always
false afterwards; and no other file is affected.  (The function is total: the
source wraps the read and unlink in a `try`/`catch`, so `release` never
throws.) -/
theorem fileLockRelease_spec (pid : Int) (lockPath : String) (held : Bool)
    (fs : LockFs) :
    (fileLockRelease pid lockPath held fs).1 = false ∧
    (held = false → fileLockRelease pid lockPath held fs = (false, fs)) ∧
    (held = true → fsRead fs lockPath = none →
      (fileLockRelease pid lockPath held fs).2 = fs) ∧
    (held = true → ∀ c, fsRead fs lockPath = some c →
      parseIntJS (jsTrim c) ≠ some pid →
      (fileLockRelease pid lockPath held fs).2 = fs) ∧
    (held = true → ∀ c, fsRead fs lockPath = some c →
      parseIntJS (jsTrim c) = some pid →
      (fileLockRelease pid lockPath held fs).2 = fsUnlink fs lockPath) ∧
    (∀ q, q ≠ lockPath →
      fsRead (fileLockRelease pid lockPath held fs).2 q = fsRead fs q) := by
  refine ⟨?_, ?_, ?_, ?_, ?_, ?_⟩
  · cases held <;> simp [fileLockRelease]
  · intro h; subst h; simp [fileLockRelease]
  · intro h hr; subst h; simp [fileLockRelease, hr]
  · intro h c hr hne; subst h; simp [fileLockRelease, hr, hne]
  · intro h c hr he; subst h; simp [fileLockRelease, hr, he]
  · intro q hq
    cases held with
    | false => simp [fileLockRelease]
    | true =>
      simp only [fileLockRelease]
      cases hr : fsRead fs lockPath with
      | none => simp
      | some c =>
        by_cases he : parseIntJS (jsTrim c) = some pid
        · simpa [he] using fsRead_unlink_ne fs lockPath q hq
        · simp [he]

/-- Witness for C9: with the lock held and the file containing the pid,
`release` unlinks the lock file. -/
theorem fileLockRelease_spec_witness :
    (true = true ∧ fsRead [("l", "42")] "l" = some "42" ∧
      parseIntJS (jsTrim "42") = some 42) ∧
    (fileLockRelease 42 "l" true [("l", "42")]).2 = fsUnlink [("l", "42")] "l" :=
  ⟨⟨rfl, by decide, by decide⟩,
    (fileLockRelease_spec 42 "l" true [("l", "42")]).2.2.2.2.1 rfl "42"
      (by decide) (by decide)⟩

/-! ## Import references (claim C3) -/

/-- C3 (counterexample): a top-level TypeScript `import x from './x'` — a
node of an import type with a non-empty module name but an empty containment
stack — yields *no* `imports` unresolved reference at all (and no file-scope
synthetic node exists): the whole extraction result is empty. -/
theorem topLevelImport_no_reference :
    (extractRun ⟨fun _ => true, fun _ _ => Except.ok tsImportTree⟩ "a.ts"
        "import x from './x'" "typescript").unresolvedReferences = [] ∧
    (extractRun ⟨fun _ => true, fun _ _ => Except.ok tsImportTree⟩ "a.ts"
        "import x from './x'" "typescript").nodes = [] ∧
    tsImportNode.info.type ∈ tsExtractor.importTypes ∧
    importModuleName ctxTS tsImportNode = "./x" := by
  refine ⟨rfl, rfl, by decide, by decide⟩

/-- C3 (amended): for a syntax node whose type is in the import set (and in
none of the earlier-checked sets), `visitNode` records an unresolved
`imports` reference on the innermost containing node exactly when the
containment stack is non-empty and the extracted module name is non-empty;
with an empty stack — a top-level import — nothing is recorded (there is no
file-scope synthetic node). -/
theorem import_reference_innermost_only (ctx : ExtCtx) (st : ExtState)
    (n : TSTree) (fuel : Nat)
    (himp : n.info.type ∈ ctx.ext.importTypes)
    (hnf : n.info.type ∉ ctx.ext.functionTypes)
    (hnc : n.info.type ∉ ctx.ext.classTypes)
    (hnm : n.info.type ∉ ctx.ext.methodTypes)
    (hni : n.info.type ∉ ctx.ext.interfaceTypes)
    (hns : n.info.type ∉ ctx.ext.structTypes)
    (hnen : n.info.type ∉ ctx.ext.enumTypes) :
    visitNode ctx (fuel + 1) st n = visitChildren ctx fuel (extractImport ctx st n) n ∧
    (st.nodeStack = [] → extractImport ctx st n = st) ∧
    (∀ pid rest, st.nodeStack = pid :: rest → importModuleName ctx n ≠ "" →
      extractImport ctx st n =
        { st with unresolvedReferences := st.unresolvedReferences ++
            [⟨pid, importModuleName ctx n, "imports", n.info.startRow + 1,
              n.info.startCol, none, none⟩] }) ∧
    (∀ pid rest, st.nodeStack = pid :: rest → importModuleName ctx n = "" →
      extractImport ctx st n = st) := by
  refine ⟨?_, ?_, ?_, ?_⟩
  · simp [visitNode, himp, hnf, hnc, hnm, hni, hns, hnen]
  · intro h; simp [extractImport, h]
  · intro pid rest h hmod; simp [extractImport, h, hmod]
  · intro pid rest h hmod; simp [extractImport, h, hmod]

/-- Witness for the amended C3: inside a class, the same import records one
`imports` reference on the class id. -/
theorem import_reference_innermost_only_witness :
    (tsImportNode.info.type ∈ tsExtractor.importTypes ∧
      (⟨[], [], [], [], ["class:c"]⟩ : ExtState).nodeStack = "class:c" :: [] ∧
      importModuleName ctxTS tsImportNode ≠ "") ∧
    extractImport ctxTS ⟨[], [], [], [], ["class:c"]⟩ tsImportNode =
      { (⟨[], [], [], [], ["class:c"]⟩ : ExtState) with unresolvedReferences :=
          [⟨"class:c", importModuleName ctxTS tsImportNode, "imports", 1, 0, none, none⟩] } :=
  ⟨⟨by decide, rfl, by decide⟩, by
    have h := (import_reference_innermost_only ctxTS ⟨[], [], [], [], ["class:c"]⟩
      tsImportNode 0 (by decide) (by decide) (by decide) (by decide) (by decide)
      (by decide) (by decide)).2.2.1 "class:c" [] rfl (by decide)
    simpa using h⟩

/-! ## Method vs function classification (claim C7) -/

/-- `extractCall` never creates nodes. -/
theorem extractCall_nodes (ctx : ExtCtx) (st : ExtState) (n : TSTree) :
    (extractCall ctx st n).nodes = st.nodes := by
  cases hs : st.nodeStack with
  | nil => simp [extractCall, hs]
  | cons c rest =>
    simp only [extractCall, hs]
    split
    · rfl
    · rfl

/-- A fold whose step preserves `nodes` preserves `nodes`. -/
theorem foldl_nodes_preserved (f : ExtState → TSTree → ExtState)
    (hf : ∀ s c, (f s c).nodes = s.nodes) :
    ∀ (l : List TSTree) (s : ExtState), (l.foldl f s).nodes = s.nodes := by
  intro l
  induction l with
  | nil => intro s; rfl
  | cons c cs ih => intro s; rw [List.foldl_cons, ih, hf]

/-- Scanning a function body records only calls: no node is ever created
inside `visitFunctionBody` — in particular a function nested inside another
function produces no node. -/
theorem visitFunctionBody_no_nodes (ctx : ExtCtx) :
    ∀ (fuel : Nat) (st : ExtState) (n : TSTree),
      (visitFunctionBody ctx fuel st n).nodes = st.nodes := by
  intro fuel
  induction fuel with
  | zero => intro st n; rfl
  | succ f ih =>
    intro st n
    have h1 : (if n.info.type ∈ ctx.ext.callTypes then extractCall ctx st n else st).nodes
        = st.nodes := by
      split
      · exact extractCall_nodes ctx st n
      · rfl
    calc (visitFunctionBody ctx (f + 1) st n).nodes
        = ((n.namedChildren.foldl (fun s c => visitFunctionBody ctx f s c)
            (if n.info.type ∈ ctx.ext.callTypes then extractCall ctx st n else st))).nodes := by
          simp [visitFunctionBody]
      _ = st.nodes := by
          rw [foldl_nodes_preserved _ (fun s c => ih s c), h1]

/-- `createNode` appends exactly the built node, of the requested kind. -/
theorem createNode_appends (ctx : ExtCtx) (st : ExtState) (kind name : String)
    (n : TSTree) :
    ((createNode ctx st kind name n).2).nodes = st.nodes ++ [(createNode ctx st kind name n).1] ∧
    (createNode ctx st kind name n).1.kind = kind := by
  cases hs : st.nodeStack with
  | nil => simp [createNode, hs]
  | cons c rest => simp [createNode, hs]

/-- C7 (amended): a function-typed node is dispatched to method extraction
exactly when the containment stack is non-empty *and* its type is also in
the language's method set; method extraction creates a `method` node
whenever the stack is non-empty or the language is Go (so Go's top-level
method declarations are methods), and with an empty stack in any other
language it re-dispatches to function extraction; a named function
extraction appends a `function` node; and function bodies are scanned for
calls only, so functions nested inside functions are never classified as
anything. -/
theorem functionMethodClassification (ctx : ExtCtx) (st : ExtState)
    (n : TSTree) (fuel : Nat)
    (hfun : n.info.type ∈ ctx.ext.functionTypes) :
    (visitNode ctx (fuel + 1) st n =
      if st.nodeStack ≠ [] ∧ n.info.type ∈ ctx.ext.methodTypes then
        extractMethod ctx fuel st n
      else extractFunction ctx fuel st n) ∧
    (st.nodeStack = [] → ctx.language ≠ "go" →
      extractMethod ctx (fuel + 1) st n = extractFunction ctx fuel st n) ∧
    (st.nodeStack ≠ [] ∨ ctx.language = "go" →
      ((extractMethod ctx (fuel + 1) st n).nodes).map (fun nd => nd.kind) =
        (st.nodes.map (fun nd => nd.kind)) ++ ["method"]) ∧
    (extractName n ctx.ext ≠ "<anonymous>" →
      ((extractFunction ctx (fuel + 1) st n).nodes).map (fun nd => nd.kind) =
        (st.nodes.map (fun nd => nd.kind)) ++ ["function"]) ∧
    (∀ fuel' st' b, (visitFunctionBody ctx fuel' st' b).nodes = st'.nodes) := by
  refine ⟨?_, ?_, ?_, ?_, fun fuel' st' b => visitFunctionBody_no_nodes ctx fuel' st' b⟩
  · simp [visitNode, hfun]
  · intro h1 h2
    simp [extractMethod, h1, h2]
  · intro h
    have hcond : ¬ (st.nodeStack = [] ∧ ctx.language ≠ "go") := by
      rcases h with h | h
      · exact fun hc => h hc.1
      · exact fun hc => hc.2 h
    simp only [extractMethod, if_neg hcond]
    cases hb : n.childForField ctx.ext.bodyField with
    | none =>
      simp [hb, (createNode_appends ctx st "method" (extractName n ctx.ext) n).1,
        (createNode_appends ctx st "method" (extractName n ctx.ext) n).2]
    | some body =>
      simp [hb, visitFunctionBody_no_nodes,
        (createNode_appends ctx st "method" (extractName n ctx.ext) n).1,
        (createNode_appends ctx st "method" (extractName n ctx.ext) n).2]
  · intro hname
    simp only [extractFunction, if_neg hname]
    cases hb : n.childForField ctx.ext.bodyField with
    | none =>
      simp [hb, (createNode_appends ctx st "function" (extractName n ctx.ext) n).1,
        (createNode_appends ctx st "function" (extractName n ctx.ext) n).2]
    | some body =>
      simp [hb, visitFunctionBody_no_nodes,
        (createNode_appends ctx st "function" (extractName n ctx.ext) n).1,
        (createNode_appends ctx st "function" (extractName n ctx.ext) n).2]

/-- Witness for the amended C7: a Python `function_definition` with a class
on the stack is extracted as a `method` node. -/
theorem functionMethodClassification_witness :
    (pyInner.info.type ∈ pyExtractor.functionTypes) ∧
    (((⟨[], [], [], [], ["class:c"]⟩ : ExtState).nodeStack ≠ [] ∨
        (⟨"a.py", "python", pyExtractor⟩ : ExtCtx).language = "go") →
      ((extractMethod ⟨"a.py", "python", pyExtractor⟩ 1
          ⟨[], [], [], [], ["class:c"]⟩ pyInner).nodes).map (fun nd => nd.kind) =
        (((⟨[], [], [], [], ["class:c"]⟩ : ExtState).nodes).map (fun nd => nd.kind)) ++
          ["method"]) :=
  ⟨by decide,
    (functionMethodClassification ⟨"a.py", "python", pyExtractor⟩
      ⟨[], [], [], [], ["class:c"]⟩ pyInner 0 (by decide)).2.2.1⟩

/-- C7 (counterexample): in the Python module holding `outer` with `inner`
nested in its body, extraction produces only the `function` node `outer` —
`inner`, a function-typed node whose innermost container is a function, is
not classified as a function (or anything else): no node for it exists. -/
theorem nestedFunction_not_classified :
    ((extractRun ⟨fun _ => true, fun _ _ => Except.ok pyNestedTree⟩ "a.py" "src"
        "python").nodes).map (fun nd => (nd.kind, nd.name)) = [("function", "outer")] ∧
    pyInner.info.type ∈ pyExtractor.functionTypes ∧
    (pyOuter.childForField "body").map (fun b => b.namedChildren.map (fun c => c.info.type)) =
      some ["function_definition"] := by
  refine ⟨by decide, by decide, by decide⟩

/-! ## Path validation on the indexing path (claim C8) -/

/-- C8 (amended): a relative path whose lexical resolution escapes the
project root is rejected by `indexFile` — the result is the traversal error,
the store is untouched, and no filesystem read happens (the outcome does not
depend on the disk at all); `indexFileWithContent` (the batch-reader path)
rejects likewise.  No realpath check is involved on this path. -/
theorem indexFile_rejects_escaping_path (env : SyncEnv) (rootDir : String)
    (config : CodeGraphConfig) (disk : Disk) (store : Store) (relPath : String)
    (hrej : validatePathWithinRoot rootDir relPath = none) :
    indexFile env rootDir config disk store relPath =
      (emptyResultWith [⟨"Path traversal blocked: " ++ relPath, "error"⟩], store) ∧
    (∀ disk' : Disk, indexFile env rootDir config disk' store relPath =
      indexFile env rootDir config disk store relPath) ∧
    (∀ content size mtimeMs,
      indexFileWithContent env rootDir config store relPath content size mtimeMs =
        (emptyResultWith [⟨"Path traversal blocked", "error"⟩], store)) := by
  refine ⟨?_, ?_, ?_⟩
  · simp [indexFile, hrej]
  · intro disk'; simp [indexFile, hrej]
  · intro content size mtimeMs; simp [indexFileWithContent, hrej]

/-- Witness for the amended C8: `../../etc/passwd` under `/proj` is blocked.
-/
theorem indexFile_rejects_escaping_path_witness :
    validatePathWithinRoot "/proj" "../../etc/passwd" = none ∧
    indexFile ⟨fun _ _ => true, fun _ => true, fun _ _ => Except.ok progTree,
        none, none, []⟩ "/proj" ⟨["**/*"], [], 100⟩ [] ⟨[], [], [], []⟩
        "../../etc/passwd" =
      (emptyResultWith [⟨"Path traversal blocked: ../../etc/passwd", "error"⟩],
        ⟨[], [], [], []⟩) :=
  ⟨by decide,
    (indexFile_rejects_escaping_path ⟨fun _ _ => true, fun _ => true,
      fun _ _ => Except.ok progTree, none, none, []⟩ "/proj" ⟨["**/*"], [], 100⟩
      [] ⟨[], [], [], []⟩ "../../etc/passwd" (by decide)).1⟩

/-- C8 (counterexample): a file whose lexical path stays inside the root but
whose realpath target lies outside it (`/proj/evil.ts` → `/etc/evil.ts`) is
*not* rejected: `indexFile` reads and indexes it and a file record appears —
the realpath check of `isPathWithinRootReal` (which does flag it) is never
applied on the indexing path. -/
theorem symlink_escape_indexed_anyway :
    isPathWithinRootReal
        (fun p => if p = "/proj/evil.ts" then some "/etc/evil.ts" else some p)
        "evil.ts" "/proj" = false ∧
    validatePathWithinRoot "/proj" "evil.ts" = some "/proj/evil.ts" ∧
    (((indexFile ⟨fun _ _ => true, fun _ => true, fun _ _ => Except.ok progTree,
        none, none, []⟩ "/proj" ⟨["**/*"], [], 100⟩
        [⟨"evil.ts", "content", 7, 0⟩] ⟨[], [], [], []⟩ "evil.ts").2).files).map
      (fun f => f.path) = ["evil.ts"] := by
  refine ⟨by decide, by decide, by decide⟩

/-! ## The sync invariant (claim C2) -/

/-- Records after `deleteFile` are the old records of other paths. -/
theorem mem_deleteFile_files {s : Store} {q : String} {r : FileRecord} :
    r ∈ (deleteFile s q).files ↔ r ∈ s.files ∧ r.path ≠ q := by
  simp [deleteFile, List.mem_filter]

/-- The upserted record is present afterwards. -/
theorem upsertFile_mem_self (s : Store) (r : FileRecord) :
    r ∈ (upsertFile s r).files := by
  unfold upsertFile
  by_cases h : s.files.any (fun f => f.path = r.path)
  · simp only [h, if_true]
    rw [List.any_eq_true] at h
    obtain ⟨f, hf, hfp⟩ := h
    refine List.mem_map.mpr ⟨f, hf, ?_⟩
    simp only [decide_eq_true_eq] at hfp
    simp [hfp]
  · simp [h]

/-- Records of other paths survive an upsert unchanged. -/
theorem upsertFile_mem_other {s : Store} {r r' : FileRecord}
    (h : r' ∈ s.files) (hne : r'.path ≠ r.path) :
    r' ∈ (upsertFile s r).files := by
  unfold upsertFile
  by_cases hb : s.files.any (fun f => f.path = r.path)
  · simp only [hb, if_true]
    exact List.mem_map.mpr ⟨r', h, by simp [hne]⟩
  · simp [hb, h]

/-- Every record after an upsert is the new record's path or an old record.
-/
theorem upsertFile_paths {s : Store} {r : FileRecord} :
    ∀ r' ∈ (upsertFile s r).files, r'.path = r.path ∨ r' ∈ s.files := by
  intro r' hr'
  unfold upsertFile at hr'
  by_cases hb : s.files.any (fun f => f.path = r.path)
  · simp only [hb, if_true] at hr'
    obtain ⟨f, hf, hfr⟩ := List.mem_map.mp hr'
    by_cases hfp : f.path = r.path
    · left; rw [← hfr]; simp [hfp]
    · right; rw [← hfr]; simpa [hfp] using hf
  · simp only [hb, if_false] at hr'
    rcases List.mem_append.mp hr' with h | h
    · right; exact h
    · left; rw [List.mem_singleton.mp h]

/-- A successful `getFileByPath` returns a stored record of that path. -/
theorem getFileByPath_mem {s : Store} {p : String} {r : FileRecord}
    (h : getFileByPath s p = some r) : r ∈ s.files ∧ r.path = p := by
  refine ⟨List.mem_of_find?_eq_some h, ?_⟩
  have := List.find?_some h
  simpa using this

/-- Without an injected failure, each mutation step simply runs when
enabled. -/
theorem stepRun_none (op : StoreOp) (enabled : Bool) (f : Store → Store)
    (s : Store) :
    stepRun none op enabled f (s, none) = (if enabled then f s else s, none) := by
  cases enabled with
  | false => rfl
  | true => rfl

/-- On the failure-free path (and past the early return), the final store is
an upsert over the conditional delete and the conditional inserts. -/
theorem storeExtractionResult_eq (s : Store) (p content lang : String)
    (size mt : Nat) (res : ExtractionResult)
    (hc : ¬ (getFileByPath s p).map (fun f => f.contentHash) =
      some (hashContent content)) :
    storeExtractionResult s p content lang size mt res =
      upsertFile
        (if decide (res.unresolvedReferences ≠ []) = true then
          insertUnresolvedRefsBatch
            (if decide (res.edges ≠ []) = true then
              insertEdges
                (if decide (res.nodes ≠ []) = true then
                  insertNodes (if (getFileByPath s p).isSome then deleteFile s p else s)
                    res.nodes
                else (if (getFileByPath s p).isSome then deleteFile s p else s))
                res.edges
            else
              (if decide (res.nodes ≠ []) = true then
                insertNodes (if (getFileByPath s p).isSome then deleteFile s p else s)
                  res.nodes
              else (if (getFileByPath s p).isSome then deleteFile s p else s)))
            (denormalizeRefs res p lang)
        else
          (if decide (res.edges ≠ []) = true then
            insertEdges
              (if decide (res.nodes ≠ []) = true then
                insertNodes (if (getFileByPath s p).isSome then deleteFile s p else s)
                  res.nodes
              else (if (getFileByPath s p).isSome then deleteFile s p else s))
              res.edges
          else
            (if decide (res.nodes ≠ []) = true then
              insertNodes (if (getFileByPath s p).isSome then deleteFile s p else s)
                res.nodes
            else (if (getFileByPath s p).isSome then deleteFile s p else s))))
        (mkFileRecord p (hashContent content) lang size mt res) := by
  unfold storeExtractionResult storeExtractionResultFail
  simp only [if_neg hc, stepRun_none, if_true]

/-- The conditional inserts do not change the `files` column. -/
theorem inserts_files (en2 en3 en4 : Prop) [Decidable en2] [Decidable en3]
    [Decidable en4] (X : Store) (ns : List GNode) (es : List GEdge)
    (rs : List UnresolvedReference) :
    ((if en4 then
        insertUnresolvedRefsBatch
          (if en3 then insertEdges (if en2 then insertNodes X ns else X) es
           else (if en2 then insertNodes X ns else X)) rs
      else
        (if en3 then insertEdges (if en2 then insertNodes X ns else X) es
         else (if en2 then insertNodes X ns else X)))).files = X.files := by
  split <;> split <;> split <;> rfl

/-- After `storeExtractionResult`, a record of the stored path with the hash
of the stored content is present (either the unchanged record or the
freshly upserted one). -/
theorem storeExtractionResult_hasRecord (s : Store) (p content lang : String)
    (size mt : Nat) (res : ExtractionResult) :
    ∃ r ∈ (storeExtractionResult s p content lang size mt res).files,
      r.path = p ∧ r.contentHash = hashContent content := by
  by_cases hc : (getFileByPath s p).map (fun f => f.contentHash) =
      some (hashContent content)
  · have hs : storeExtractionResult s p content lang size mt res = s := by
      unfold storeExtractionResult storeExtractionResultFail
      simp only [if_pos hc]
    rw [hs]
    cases hg : getFileByPath s p with
    | none => rw [hg] at hc; simp at hc
    | some ex =>
      rw [hg] at hc
      simp only [Option.map_some', Option.some.injEq] at hc
      obtain ⟨hmem, hpath⟩ := getFileByPath_mem hg
      exact ⟨ex, hmem, hpath, hc⟩
  · rw [storeExtractionResult_eq s p content lang size mt res hc]
    exact ⟨mkFileRecord p (hashContent content) lang size mt res,
      upsertFile_mem_self _ _, rfl, rfl⟩

/-- `storeExtractionResult` of one path keeps a matching record of any other
path. -/
theorem storeExtractionResult_preserves (s : Store) (p content lang : String)
    (size mt : Nat) (res : ExtractionResult) {p' h' : String} (hne : p' ≠ p)
    (hx : ∃ r ∈ s.files, r.path = p' ∧ r.contentHash = h') :
    ∃ r ∈ (storeExtractionResult s p content lang size mt res).files,
      r.path = p' ∧ r.contentHash = h' := by
  obtain ⟨r, hr, hrp, hrh⟩ := hx
  by_cases hc : (getFileByPath s p).map (fun f => f.contentHash) =
      some (hashContent content)
  · have hs : storeExtractionResult s p content lang size mt res = s := by
      unfold storeExtractionResult storeExtractionResultFail
      simp only [if_pos hc]
    rw [hs]
    exact ⟨r, hr, hrp, hrh⟩
  · rw [storeExtractionResult_eq s p content lang size mt res hc]
    refine ⟨r, ?_, hrp, hrh⟩
    apply upsertFile_mem_other ?_ (by rw [hrp]; exact hne)
    rw [inserts_files]
    split
    · exact mem_deleteFile_files.mpr ⟨hr, hrp ▸ hne⟩
    · exact hr

/-- Every record after `storeExtractionResult` is of the stored path or was
present before. -/
theorem storeExtractionResult_paths (s : Store) (p content lang : String)
    (size mt : Nat) (res : ExtractionResult) :
    ∀ r ∈ (storeExtractionResult s p content lang size mt res).files,
      r.path = p ∨ r ∈ s.files := by
  intro r hr
  by_cases hc : (getFileByPath s p).map (fun f => f.contentHash) =
      some (hashContent content)
  · have hs : storeExtractionResult s p content lang size mt res = s := by
      unfold storeExtractionResult storeExtractionResultFail
      simp only [if_pos hc]
    rw [hs] at hr
    exact Or.inr hr
  · rw [storeExtractionResult_eq s p content lang size mt res hc] at hr
    rcases upsertFile_paths r hr with h | h
    · exact Or.inl h
    · rw [inserts_files] at h
      revert h
      split
      · intro h; exact Or.inr (mem_deleteFile_files.mp h).1
      · intro h; exact Or.inr h

/-- `indexFile` either leaves the store alone or runs
`storeExtractionResult` for the on-disk content of its own path. -/
theorem indexFile_store_cases (env : SyncEnv) (root : String)
    (cfg : CodeGraphConfig) (disk : Disk) (s : Store) (q : String) :
    (indexFile env root cfg disk s q).2 = s ∨
    ∃ d res, diskFind disk q = some d ∧
      (indexFile env root cfg disk s q).2 =
        storeExtractionResult s q d.content (detectLanguage q) d.size d.mtimeMs res := by
  unfold indexFile
  cases hv : validatePathWithinRoot root q with
  | none => exact Or.inl rfl
  | some full =>
    cases dq : diskFind disk q with
    | none => exact Or.inl rfl
    | some d =>
      unfold indexFileWithContent
      rw [hv]
      by_cases hsz : d.size > cfg.maxFileSize
      · left; simp [hsz]
      · by_cases hlang : isLanguageSupported env.loadOk (detectLanguage q)
        · by_cases hgo : (extractRun ⟨env.loadOk, env.parseResult⟩ q d.content
              (detectLanguage q)).nodes ≠ [] ∨
              (extractRun ⟨env.loadOk, env.parseResult⟩ q d.content
                (detectLanguage q)).errors = []
          · right
            refine ⟨d, extractRun ⟨env.loadOk, env.parseResult⟩ q d.content
              (detectLanguage q), rfl, ?_⟩
            simp [hsz, hlang, hgo]
          · left; simp [hsz, hlang, hgo]
        · left; simp [hsz, hlang]

/-- Indexing any file keeps a matching record of path `p` whose hash is the
hash of `p`'s on-disk content (indexing `p` itself re-establishes it). -/
theorem indexFile_preserves_hasRecord (env : SyncEnv) (root : String)
    (cfg : CodeGraphConfig) (disk : Disk) {p : String} {d : DiskFile}
    (dp : diskFind disk p = some d) (q : String) (s : Store)
    (hx : ∃ r ∈ s.files, r.path = p ∧ r.contentHash = hashContent d.content) :
    ∃ r ∈ ((indexFile env root cfg disk s q).2).files,
      r.path = p ∧ r.contentHash = hashContent d.content := by
  rcases indexFile_store_cases env root cfg disk s q with h | ⟨d', res, hd', heq⟩
  · rw [h]; exact hx
  · rw [heq]
    by_cases hqp : q = p
    · subst hqp
      rw [dp] at hd'
      cases hd'
      exact storeExtractionResult_hasRecord s q d.content (detectLanguage q)
        d.size d.mtimeMs res
    · exact storeExtractionResult_preserves s q d'.content (detectLanguage q)
        d'.size d'.mtimeMs res (fun hpq => hqp hpq.symm) hx

/-- Every record after indexing one file is of that file's path or was
already present. -/
theorem indexFile_paths (env : SyncEnv) (root : String) (cfg : CodeGraphConfig)
    (disk : Disk) (s : Store) (q : String) :
    ∀ r ∈ ((indexFile env root cfg disk s q).2).files, r.path = q ∨ r ∈ s.files := by
  intro r hr
  rcases indexFile_store_cases env root cfg disk s q with h | ⟨d', res, _, heq⟩
  · rw [h] at hr; exact Or.inr hr
  · rw [heq] at hr
    exact storeExtractionResult_paths s q d'.content (detectLanguage q)
      d'.size d'.mtimeMs res r hr

/-- For a readable, size-conforming, language-supported file whose
extraction is storable, indexing it leaves a matching record. -/
theorem indexFile_establishes (env : SyncEnv) (root : String)
    (cfg : CodeGraphConfig) (disk : Disk) {p : String} {d : DiskFile}
    (dp : diskFind disk p = some d)
    (hv : validatePathWithinRoot root p ≠ none)
    (hsz : ¬ d.size > cfg.maxFileSize)
    (hlang : isLanguageSupported env.loadOk (detectLanguage p))
    (hgood : (extractRun ⟨env.loadOk, env.parseResult⟩ p d.content
        (detectLanguage p)).nodes ≠ [] ∨
      (extractRun ⟨env.loadOk, env.parseResult⟩ p d.content
        (detectLanguage p)).errors = [])
    (s : Store) :
    ∃ r ∈ ((indexFile env root cfg disk s p).2).files,
      r.path = p ∧ r.contentHash = hashContent d.content := by
  unfold indexFile
  cases hvv : validatePathWithinRoot root p with
  | none => exact absurd hvv hv
  | some full =>
    rw [dp]
    unfold indexFileWithContent
    rw [hvv]
    simp only [if_neg hsz, hlang, not_true, if_false, if_pos hgood]
    exact storeExtractionResult_hasRecord s p d.content (detectLanguage p)
      d.size d.mtimeMs _

/-- The indexing loop keeps a matching record of `p` (for `p`'s on-disk
content). -/
theorem syncIndexLoop_preserves (env : SyncEnv) (root : String)
    (cfg : CodeGraphConfig) (disk : Disk) {p : String} {d : DiskFile}
    (dp : diskFind disk p = some d) :
    ∀ (l : List String) (acc : Store × Nat),
      (∃ r ∈ acc.1.files, r.path = p ∧ r.contentHash = hashContent d.content) →
      ∃ r ∈ (l.foldl (indexStep env root cfg disk) acc).1.files,
        r.path = p ∧ r.contentHash = hashContent d.content := by
  intro l
  induction l with
  | nil => intro acc hx; exact hx
  | cons q l' ih =>
    intro acc hx
    rw [List.foldl_cons]
    exact ih (indexStep env root cfg disk acc q)
      (indexFile_preserves_hasRecord env root cfg disk dp q acc.1 hx)

/-- Once the loop reaches `p` (a good file), a matching record exists at the
end. -/
theorem syncIndexLoop_establishes (env : SyncEnv) (root : String)
    (cfg : CodeGraphConfig) (disk : Disk) {p : String} {d : DiskFile}
    (dp : diskFind disk p = some d)
    (hv : validatePathWithinRoot root p ≠ none)
    (hsz : ¬ d.size > cfg.maxFileSize)
    (hlang : isLanguageSupported env.loadOk (detectLanguage p))
    (hgood : (extractRun ⟨env.loadOk, env.parseResult⟩ p d.content
        (detectLanguage p)).nodes ≠ [] ∨
      (extractRun ⟨env.loadOk, env.parseResult⟩ p d.content
        (detectLanguage p)).errors = []) :
    ∀ (l : List String) (acc : Store × Nat), p ∈ l →
      ∃ r ∈ (l.foldl (indexStep env root cfg disk) acc).1.files,
        r.path = p ∧ r.contentHash = hashContent d.content := by
  intro l
  induction l with
  | nil => intro acc hp; cases hp
  | cons q l' ih =>
    intro acc hp
    rw [List.foldl_cons]
    rcases List.mem_cons.mp hp with hq | hp'
    · subst hq
      exact syncIndexLoop_preserves env root cfg disk dp l' _
        (indexFile_establishes env root cfg disk dp hv hsz hlang hgood acc.1)
    · exact ih (indexStep env root cfg disk acc q) hp'

/-- The indexing loop over paths of `current` keeps every record's path in
`current`. -/
theorem syncIndexLoop_paths (env : SyncEnv) (root : String)
    (cfg : CodeGraphConfig) (disk : Disk) (current : List String) :
    ∀ (l : List String) (acc : Store × Nat),
      (∀ x ∈ l, x ∈ current) →
      (∀ r ∈ acc.1.files, r.path ∈ current) →
      ∀ r ∈ (l.foldl (indexStep env root cfg disk) acc).1.files, r.path ∈ current := by
  intro l
  induction l with
  | nil => intro acc _ hacc; exact hacc
  | cons q l' ih =>
    intro acc hl hacc
    rw [List.foldl_cons]
    refine ih (indexStep env root cfg disk acc q) (fun x hx => hl x (by simp [hx])) ?_
    intro r hr
    rcases indexFile_paths env root cfg disk acc.1 q r hr with h | h
    · rw [h]; exact hl q (by simp)
    · exact hacc r h

/-- Records of still-present paths survive the stale-record sweep. -/
theorem delFold_keep {current : List String} {r : FileRecord}
    (hp : r.path ∈ current) :
    ∀ (ts : List FileRecord) (acc : Store × Nat), r ∈ acc.1.files →
      r ∈ (ts.foldl (delStep current) acc).1.files := by
  intro ts
  induction ts with
  | nil => intro acc h; exact h
  | cons t ts' ih =>
    intro acc h
    rw [List.foldl_cons]
    refine ih (delStep current acc t) ?_
    unfold delStep
    by_cases hct : t.path ∈ current
    · simpa [hct] using h
    · have hne : r.path ≠ t.path := fun he => hct (he ▸ hp)
      simp only [hct, if_false]
      exact mem_deleteFile_files.mpr ⟨h, hne⟩

/-- After the sweep, every surviving record's path is a scanned path
(provided the snapshot being iterated covers the records). -/
theorem delFold_complete {current : List String} :
    ∀ (ts : List FileRecord) (acc : Store × Nat),
      (∀ r ∈ acc.1.files, r.path ∈ current ∨ ∃ t ∈ ts, t.path = r.path) →
      ∀ r ∈ (ts.foldl (delStep current) acc).1.files, r.path ∈ current := by
  intro ts
  induction ts with
  | nil =>
    intro acc hinv r hr
    rcases hinv r hr with h | ⟨t, ht, _⟩
    · exact h
    · cases ht
  | cons t ts' ih =>
    intro acc hinv
    rw [List.foldl_cons]
    refine ih (delStep current acc t) ?_
    intro r hr
    unfold delStep at hr
    by_cases hct : t.path ∈ current
    · simp only [hct, if_true] at hr
      rcases hinv r hr with h | ⟨t'', ht'', he⟩
      · exact Or.inl h
      · rcases List.mem_cons.mp ht'' with h1 | h1
        · subst h1; exact Or.inl (he ▸ hct)
        · exact Or.inr ⟨t'', h1, he⟩
    · simp only [hct, if_false] at hr
      obtain ⟨hr', hne⟩ := mem_deleteFile_files.mp hr
      rcases hinv r hr' with h | ⟨t'', ht'', he⟩
      · exact Or.inl h
      · rcases List.mem_cons.mp ht'' with h1 | h1
        · subst h1; exact absurd he.symm hne
        · exact Or.inr ⟨t'', h1, he⟩

/-- `classifyFile` only appends to the work list. -/
theorem classifyFile_toIndex_mono {x : String} (acc : SyncAcc) (p : String)
    (d : DiskFile) (t : Option FileRecord) (h : x ∈ acc.toIndex) :
    x ∈ (classifyFile acc p d t).toIndex := by
  cases t with
  | none =>
    simp only [classifyFile]
    exact List.mem_append_left _ h
  | some t' =>
    by_cases hh : t'.contentHash ≠ hashContent d.content
    · simp only [classifyFile, if_pos hh]
      exact List.mem_append_left _ h
    · simp only [classifyFile, if_neg hh]
      exact h

/-- `classifyFile` appends at most its own path. -/
theorem classifyFile_toIndex_sub {x : String} (acc : SyncAcc) (p : String)
    (d : DiskFile) (t : Option FileRecord)
    (h : x ∈ (classifyFile acc p d t).toIndex) :
    x ∈ acc.toIndex ∨ x = p := by
  cases t with
  | none =>
    simp only [classifyFile] at h
    rcases List.mem_append.mp h with h1 | h1
    · exact Or.inl h1
    · exact Or.inr (List.mem_singleton.mp h1)
  | some t' =>
    by_cases hh : t'.contentHash ≠ hashContent d.content
    · simp only [classifyFile, if_pos hh] at h
      rcases List.mem_append.mp h with h1 | h1
      · exact Or.inl h1
      · exact Or.inr (List.mem_singleton.mp h1)
    · simp only [classifyFile, if_neg hh] at h
      exact Or.inl h

/-- One classify step only appends to the work list. -/
theorem classifyStep_toIndex_mono {x : String} (disk : Disk)
    (track : String → Option FileRecord) (acc : SyncAcc) (p : String)
    (h : x ∈ acc.toIndex) : x ∈ (classifyStep disk track acc p).toIndex := by
  unfold classifyStep
  cases diskFind disk p with
  | none => exact h
  | some d => exact classifyFile_toIndex_mono acc p d (track p) h

/-- Work-list membership is monotone along the classification fold. -/
theorem classifyFold_mono {x : String} (disk : Disk)
    (track : String → Option FileRecord) :
    ∀ (l : List String) (acc : SyncAcc), x ∈ acc.toIndex →
      x ∈ (l.foldl (classifyStep disk track) acc).toIndex := by
  intro l
  induction l with
  | nil => intro acc h; exact h
  | cons q l' ih =>
    intro acc h
    rw [List.foldl_cons]
    exact ih (classifyStep disk track acc q)
      (classifyStep_toIndex_mono disk track acc q h)

/-- Everything on the final work list came from the initial one or from the
scanned paths. -/
theorem classifyFold_subset (disk : Disk) (track : String → Option FileRecord) :
    ∀ (l : List String) (acc : SyncAcc) (x : String),
      x ∈ (l.foldl (classifyStep disk track) acc).toIndex →
      x ∈ acc.toIndex ∨ x ∈ l := by
  intro l
  induction l with
  | nil => intro acc x h; exact Or.inl h
  | cons q l' ih =>
    intro acc x h
    rw [List.foldl_cons] at h
    rcases ih (classifyStep disk track acc q) x h with h1 | h1
    · unfold classifyStep at h1
      revert h1
      cases diskFind disk q with
      | none => intro h1; exact Or.inl h1
      | some d =>
        intro h1
        rcases classifyFile_toIndex_sub acc q d (track q) h1 with h2 | h2
        · exact Or.inl h2
        · exact Or.inr (by simp [h2])
    · exact Or.inr (by simp [h1])

/-- A scanned, readable file either lands on the work list or its tracked
record already carries the current hash. -/
theorem classifyFold_dichotomy (disk : Disk) (track : String → Option FileRecord)
    {p : String} {d : DiskFile} (dp : diskFind disk p = some d) :
    ∀ (l : List String) (acc : SyncAcc), p ∈ l →
      p ∈ (l.foldl (classifyStep disk track) acc).toIndex ∨
      ∃ t, track p = some t ∧ t.contentHash = hashContent d.content := by
  intro l
  induction l with
  | nil => intro acc hp; cases hp
  | cons q l' ih =>
    intro acc hp
    rw [List.foldl_cons]
    rcases List.mem_cons.mp hp with hq | hp'
    · subst hq
      have hstep : classifyStep disk track acc p = classifyFile acc p d (track p) := by
        unfold classifyStep
        rw [dp]
      cases ht : track p with
      | none =>
        left
        refine classifyFold_mono disk track l' _ ?_
        rw [hstep, ht]
        simp only [classifyFile]
        exact List.mem_append_right _ (by simp)
      | some t =>
        by_cases hh : t.contentHash ≠ hashContent d.content
        · left
          refine classifyFold_mono disk track l' _ ?_
          rw [hstep, ht]
          simp only [classifyFile, if_pos hh]
          exact List.mem_append_right _ (by simp)
        · right
          exact ⟨t, rfl, not_ne_iff.mp hh⟩
    · exact ih (classifyStep disk track acc q) hp'

/-- Every path the fallback scan returns is readable on the disk snapshot. -/
theorem scanWalk_readable (env : SyncEnv) (cfg : CodeGraphConfig) (disk : Disk) :
    ∀ p ∈ scanDirectoryWalk env cfg disk, ∃ d, diskFind disk p = some d := by
  intro p hp
  unfold scanDirectoryWalk at hp
  obtain ⟨f, hf, hfp⟩ := List.mem_map.mp hp
  have hfd : f ∈ disk := List.mem_of_mem_filter hf
  subst hfp
  unfold diskFind
  have : (disk.find? (fun d => d.relPath = f.relPath)).isSome := by
    rw [List.find?_isSome]
    exact ⟨f, hfd, by simp⟩
  cases hfind : disk.find? (fun d => d.relPath = f.relPath) with
  | none => rw [hfind] at this; cases this
  | some d => exact ⟨d, rfl⟩

/-- The final store of the fallback path, spelled out. -/
theorem syncFallback_snd (env : SyncEnv) (root : String) (cfg : CodeGraphConfig)
    (disk : Disk) (store : Store) :
    (syncFallback env root cfg disk store).2 =
      (syncIndexLoop env root cfg disk
        (((getAllFiles store).foldl (delStep (scanDirectory env cfg disk))
          (store, 0)).1)
        (((scanDirectory env cfg disk).foldl
          (classifyStep disk
            (fun p => (getAllFiles store).find? (fun f => f.path = p)))
          ⟨[], [], 0, 0⟩).toIndex)).1 := rfl

/-- C2 (amended): with git unavailable, `sync` takes the full-scan fallback
and after it returns (i) every file record in the store is of a scanned
on-disk path, (ii) every scanned path is readable from the disk snapshot,
and (iii) every scanned file that passes path validation, the size limit and
language support, and whose extraction yields nodes or no errors, has a file
record whose content hash is the hash of its current content.  (Under the
git-status fast path only the files git reports are reconciled — see the
counterexample.) -/
theorem sync_fallback_invariant (env : SyncEnv) (root : String)
    (cfg : CodeGraphConfig) (disk : Disk) (store : Store)
    (hgit : env.gitStatusLines = none) (hls : env.gitLsFiles = none) :
    (∀ r ∈ ((syncRun env root cfg disk store).2).files,
      r.path ∈ scanDirectory env cfg disk) ∧
    (∀ p ∈ scanDirectory env cfg disk, ∃ d, diskFind disk p = some d) ∧
    (∀ (p : String) (d : DiskFile), p ∈ scanDirectory env cfg disk →
      diskFind disk p = some d →
      validatePathWithinRoot root p ≠ none →
      ¬ d.size > cfg.maxFileSize →
      isLanguageSupported env.loadOk (detectLanguage p) →
      ((extractRun ⟨env.loadOk, env.parseResult⟩ p d.content
          (detectLanguage p)).nodes ≠ [] ∨
        (extractRun ⟨env.loadOk, env.parseResult⟩ p d.content
          (detectLanguage p)).errors = []) →
      ∃ r ∈ ((syncRun env root cfg disk store).2).files,
        r.path = p ∧ r.contentHash = hashContent d.content) := by
  have hscan : scanDirectory env cfg disk = scanDirectoryWalk env cfg disk := by
    unfold scanDirectory
    rw [hls]
  have hrun : syncRun env root cfg disk store = syncFallback env root cfg disk store := by
    unfold syncRun getGitChangedFiles
    rw [hgit]
    rfl
  refine ⟨?_, ?_, ?_⟩
  · intro r hr
    rw [hrun, syncFallback_snd] at hr
    unfold syncIndexLoop at hr
    refine syncIndexLoop_paths env root cfg disk (scanDirectory env cfg disk) _ _
      ?_ ?_ r hr
    · intro x hx
      rcases classifyFold_subset disk _ (scanDirectory env cfg disk) _ x hx with h | h
      · cases h
      · exact h
    · intro r' hr'
      refine delFold_complete (getAllFiles store) (store, 0) ?_ r' hr'
      intro r'' hr''
      exact Or.inr ⟨r'', hr'', rfl⟩
  · intro p hp
    rw [hscan] at hp
    exact scanWalk_readable env cfg disk p hp
  · intro p d hp dp hv hsz hlang hgood
    rw [hrun, syncFallback_snd]
    unfold syncIndexLoop
    rcases classifyFold_dichotomy disk
        (fun p => (getAllFiles store).find? (fun f => f.path = p)) dp
        (scanDirectory env cfg disk) ⟨[], [], 0, 0⟩ hp with htix | ⟨t, ht, hth⟩
    · exact syncIndexLoop_establishes env root cfg disk dp hv hsz hlang hgood _ _ htix
    · have hmem : t ∈ store.files := List.mem_of_find?_eq_some ht
      have hpath : t.path = p := by simpa using List.find?_some ht
      refine syncIndexLoop_preserves env root cfg disk dp _ _
        ⟨t, delFold_keep (hpath ▸ hp) (getAllFiles store) (store, 0) hmem, hpath, hth⟩

/-- Witness for the amended C2: a one-file disk (`a.ts`, parsing to an empty
program) under a non-git project. -/
theorem sync_fallback_invariant_witness :
    ((⟨fun _ _ => true, fun _ => true, fun _ _ => Except.ok progTree, none, none, []⟩ :
        SyncEnv).gitStatusLines = none ∧
      ("a.ts" : String) ∈ scanDirectory
        ⟨fun _ _ => true, fun _ => true, fun _ _ => Except.ok progTree, none, none, []⟩
        ⟨["**"], [], 100⟩ [⟨"a.ts", "x", 1, 0⟩] ∧
      diskFind [⟨"a.ts", "x", 1, 0⟩] "a.ts" = some ⟨"a.ts", "x", 1, 0⟩) ∧
    ∃ r ∈ ((syncRun
        ⟨fun _ _ => true, fun _ => true, fun _ _ => Except.ok progTree, none, none, []⟩
        "/proj" ⟨["**"], [], 100⟩ [⟨"a.ts", "x", 1, 0⟩] ⟨[], [], [], []⟩).2).files,
      r.path = "a.ts" ∧ r.contentHash = hashContent ("a.ts", "x", 1, 0).2.1 := by
  refine ⟨⟨rfl, by decide, by decide⟩, ?_⟩
  have h := (sync_fallback_invariant
    ⟨fun _ _ => true, fun _ => true, fun _ _ => Except.ok progTree, none, none, []⟩
    "/proj" ⟨["**"], [], 100⟩ [⟨"a.ts", "x", 1, 0⟩] ⟨[], [], [], []⟩ rfl rfl).2.2
    "a.ts" ⟨"a.ts", "x", 1, 0⟩ (by decide) (by decide) (by decide) (by decide)
    (by decide) (Or.inr rfl)
  simpa using h

/-- C2 (counterexample): under the git fast path, a store record whose file
no longer exists on the (empty) disk survives `sync` untouched when `git
status` reports nothing — the claimed invariant "every file record
corresponds to a file on disk" fails. -/
theorem sync_gitFastPath_misses_stale_record :
    (syncRun
        ⟨fun _ _ => true, fun _ => true, fun _ _ => Except.error "e", none, some [], []⟩
        "/p" ⟨["**"], [], 100⟩ []
        ⟨[⟨"gone.ts", "h", "typescript", 1, 0, 0, []⟩], [], [], []⟩).2 =
      ⟨[⟨"gone.ts", "h", "typescript", 1, 0, 0, []⟩], [], [], []⟩ ∧
    diskFind [] "gone.ts" = none :=
  ⟨rfl, rfl⟩

end CodeGraph
